import Mathlib

/-!
Shallow embedding of the disk-resident page-organized index engine
(packages `pager`, `btpage`, `bptree`, `btree`, and the generic engine in
package `shared`) and proofs about the claims of its specification.

Modelling conventions:
* A Go `[PageSize]byte` page is a function `Nat → Nat` returning byte values;
  the low 8 bits are kept at each write, matching Go's byte stores.
* Go `int` arithmetic is `Int` wherever a value can be negative or wraps at a
  narrowing cast (`uint16(x)` becomes `% 2^16`); loop counters and indices that
  are provably non-negative in every call site are `Nat`.
* Go pointers to pages become value passing: every function returns the pages
  or state it mutated.  I/O errors and fuel exhaustion of unbounded Go loops
  are both `Option.none`.
* The pager's intrusive doubly-linked LRU list is modelled as a `List` with
  the most-recently-used entry first; `evict` drops the last element.
-/

namespace Engine

/-- Little-endian read of `len` bytes at offset `off`. -/
def leGet (p : Nat → Nat) (off : Nat) : Nat → Nat
  | 0 => 0
  | len + 1 => p off % 256 + 256 * leGet p (off + 1) len

/-- Little-endian write of the low `8*len` bits of `v` at offset `off`
(`binary.LittleEndian.PutUintNN`; narrowing casts are absorbed byte-wise). -/
def lePut (p : Nat → Nat) (off len v : Nat) : Nat → Nat :=
  fun i => if off ≤ i ∧ i < off + len then v / 256 ^ (i - off) % 256 else p i

/-- `copy(p[off:], l)` — raw byte copy of a Go byte slice into a page. -/
def putBytes (p : Nat → Nat) (off : Nat) (l : List Nat) : Nat → Nat :=
  fun i => if off ≤ i ∧ i < off + l.length then l.getD (i - off) 0 % 256 else p i

/-- Read `len` raw bytes starting at `off` (building a Go byte slice). -/
def getBytes (p : Nat → Nat) (off : Nat) : Nat → List Nat
  | 0 => []
  | len + 1 => p off % 256 :: getBytes p (off + 1) len

/-- Go `uint16(x)` for an `int` x. -/
def u16ofInt (v : Int) : Nat := (v % 65536).toNat

/-- Go `uint32(x)` for a non-negative wide integer. -/
def u32ofNat (v : Nat) : Nat := v % 4294967296

/-- Go `uint64(k)` for an `int64` k. -/
def u64ofInt (k : Int) : Nat := (k % 18446744073709551616).toNat

/-- Go `int64(u)` for a `uint64` u. -/
def i64ofNat (u : Nat) : Int :=
  if u % 18446744073709551616 < 9223372036854775808 then
    (u % 18446744073709551616 : Int)
  else (u % 18446744073709551616 : Int) - 18446744073709551616

namespace pager

def PageSize : Nat := 4096

/-- `pager.InvalidPage = ^uint64(0)`. -/
def InvalidPage64 : Nat := 18446744073709551615

/-- A raw 4 KB block; index `i ≥ PageSize` is never accessed by the code. -/
def Page := Nat → Nat

/-- The LRU cache: most-recently-used first (Go: intrusive list head first). -/
abbrev Cache : Type := List (Nat × Page)

/-- `lruCache.get`: a hit moves the entry to the front.  Returns the page
(or `none`) together with the reordered list. -/
def lruGet (c : Cache) (id : Nat) : Option Page × Cache :=
  match c.find? (fun e => e.1 == id) with
  | some e => (some e.2, (id, e.2) :: c.eraseP (fun e => e.1 == id))
  | none => (none, c)

/-- `lruCache.evict`: drop the tail (least recently used). -/
def lruEvict (c : Cache) : Cache := c.dropLast

/-- `lruCache.put`: update-and-move-to-front on a hit, else push front and
evict the tail once the capacity is exceeded. -/
def lruPut (c : Cache) (id : Nat) (pg : Page) (cap : Int) : Cache :=
  match c.find? (fun e => e.1 == id) with
  | some _ => (id, pg) :: c.eraseP (fun e => e.1 == id)
  | none =>
    let c1 := (id, pg) :: c
    if (c1.length : Int) > cap then lruEvict c1 else c1

/-- The pager: backing file (allocated blocks only), block count, LRU cache. -/
structure Pager where
  file : Nat → Option Page
  pageCount : Nat
  cacheCap : Int
  cache : Cache

/-- `Pager.readPageFromDisk`: positioned read; absent block = I/O error. -/
def readPageFromDisk (pg : Pager) (id : Nat) : Option Page := pg.file id

/-- `Pager.writePageToDisk`: positioned write at `id * PageSize`. -/
def writePageToDisk (pg : Pager) (id : Nat) (p : Page) : Pager :=
  { pg with file := fun j => if j = id then some p else pg.file j }

/-- `Pager.writePageCount`: rewrite block 0's 8-byte count header, preserving
the rest of block 0 when the file already has data. -/
def writePageCount (pg : Pager) : Pager :=
  let hdr : Page :=
    if pg.pageCount > 1 then
      match readPageFromDisk pg 0 with
      | some existing => existing
      | none => fun _ => 0
    else fun _ => 0
  writePageToDisk pg 0 (lePut hdr 0 8 pg.pageCount)

/-- `Pager.Allocate`: extend the file with a zero block, persist the count. -/
def Allocate (pg : Pager) : Pager × Nat :=
  let id := pg.pageCount
  let pg1 : Pager := { pg with pageCount := id + 1 }
  let pg2 := writePageToDisk pg1 id (fun _ => 0)
  (writePageCount pg2, id)

/-- `Pager.Read`: cache first, else disk + insert into the cache. -/
def Read (pg : Pager) (id : Nat) : Option (Page × Pager) :=
  match lruGet pg.cache id with
  | (some p, c) => some (p, { pg with cache := c })
  | (none, _) =>
    match readPageFromDisk pg id with
    | none => none
    | some p => some (p, { pg with cache := lruPut pg.cache id p pg.cacheCap })

/-- `Pager.Write`: write-through — update the cache and the file. -/
def Write (pg : Pager) (id : Nat) (p : Page) : Pager :=
  writePageToDisk { pg with cache := lruPut pg.cache id p pg.cacheCap } id p

/-- `pager.Open` on a fresh path: count starts at 1 and is persisted. -/
def openFresh (cacheSize : Int) : Pager :=
  writePageCount { file := fun _ => none, pageCount := 1,
                   cacheCap := cacheSize, cache := [] }

end pager

open pager (Page Pager)

namespace btpage

def TypeInternal : Nat := 0
def TypeLeaf : Nat := 1

def OffType : Nat := 0
def OffNumCells : Nat := 1
def OffCellContent : Nat := 3
def OffRightmost : Nat := 5
def OffNextLeaf : Nat := 9
def OffCellPtrs : Nat := 13

def CellPtrSize : Nat := 2

/-- `btpage.InvalidPage = uint32(0xFFFFFFFF)`. -/
def InvalidPage : Nat := 4294967295

def NumCells (p : Page) : Nat := leGet p OffNumCells 2

def SetNumCells (p : Page) (n : Int) : Page := lePut p OffNumCells 2 (u16ofInt n)

def CellContent (p : Page) : Nat := leGet p OffCellContent 2

def SetCellContent (p : Page) (v : Nat) : Page := lePut p OffCellContent 2 v

def Rightmost (p : Page) : Nat := leGet p OffRightmost 4

def SetRightmost (p : Page) (id : Nat) : Page := lePut p OffRightmost 4 id

def NextLeaf (p : Page) : Nat := leGet p OffNextLeaf 4

def SetNextLeaf (p : Page) (id : Nat) : Page := lePut p OffNextLeaf 4 id

def CellPtr (p : Page) (i : Nat) : Nat := leGet p (OffCellPtrs + i * CellPtrSize) 2

def SetCellPtr (p : Page) (i : Nat) (off : Nat) : Page :=
  lePut p (OffCellPtrs + i * CellPtrSize) 2 off

/-- `btpage.InitPage`: zero the page, set its kind, count 0, content top at
the page end, next-leaf at the invalid sentinel.  The old page is discarded. -/
def InitPage (_p : Page) (pt : Nat) : Page :=
  let z : Page := fun _ => 0
  let z : Page := fun i => if i = OffType then pt % 256 else z i
  SetNextLeaf (SetCellContent (SetNumCells z 0) pager.PageSize) InvalidPage

/-- `btpage.FreeSpace`: bytes between the pointer array end and content top. -/
def FreeSpace (p : Page) (n : Nat) : Int :=
  (CellContent p : Int) - ((OffCellPtrs : Int) + (n : Int) * CellPtrSize)

/-- `btpage.AllocCell`: bump the content top down by `size`; the stored top is
the Go `uint16(top)` while the returned offset is the untruncated `int`. -/
def AllocCell (p : Page) (size : Int) : Page × Int :=
  let top : Int := (CellContent p : Int) - size
  (SetCellContent p (u16ofInt top), top)

end btpage

/-- Go `p[i]` on a page: a byte read. -/
def byteAt (p : Page) (i : Nat) : Nat := p i % 256

/-- The binary-search loop written identically in `shared.FindIdx`,
`bptree.findInternalIdx`, `bptree.findLeafIdx` and `btree.findKeyIndex`:
`lo, hi := 0, n; for lo < hi { m := (lo+hi)/2; if keyAt(m) < key { lo = m+1 }
else { hi = m } }; return lo`.  The loop runs at most `hi - lo` times, so the
structural counter of `bsearchAux` never runs out (`bsearchAux_extend`). -/
def bsearchAux (keyAt : Nat → Int) (key : Int) : Nat → Nat → Nat → Nat
  | 0, lo, _ => lo
  | f + 1, lo, hi =>
    if lo < hi then
      let m := (lo + hi) / 2
      if keyAt m < key then bsearchAux keyAt key f (m + 1) hi
      else bsearchAux keyAt key f lo m
    else lo

def bsearch (keyAt : Nat → Int) (key : Int) (lo hi : Nat) : Nat :=
  bsearchAux keyAt key (hi - lo) lo hi

namespace bptree

def internalCellSize : Int := 4 + 8

def readInternalCell (p : Page) (i : Nat) : Int × Nat :=
  let off := btpage.CellPtr p i
  (i64ofNat (leGet p (off + 4) 8), leGet p off 4)

def writeInternalCell (p : Page) (off : Int) (key : Int) (leftChild : Nat) : Page :=
  lePut (lePut p off.toNat 4 leftChild) (off.toNat + 4) 8 (u64ofInt key)

def appendInternalCell (p : Page) (key : Int) (leftChild : Nat) : Page :=
  let n := btpage.NumCells p
  let pOff := btpage.AllocCell p internalCellSize
  let p1 := writeInternalCell pOff.1 pOff.2 key leftChild
  let p2 := btpage.SetCellPtr p1 n (u16ofInt pOff.2)
  btpage.SetNumCells p2 ((n : Int) + 1)

def internalChildAt (p : Page) (idx n : Nat) : Nat :=
  if idx = n then btpage.Rightmost p else (readInternalCell p idx).2

def findInternalIdx (p : Page) (key : Int) (n : Nat) : Nat :=
  bsearch (fun m => (readInternalCell p m).1) key 0 n

def leafCellSize (value : List Nat) : Int := 8 + 2 + value.length

def readLeafCell (p : Page) (i : Nat) : Int × List Nat :=
  let off := btpage.CellPtr p i
  (i64ofNat (leGet p off 8), getBytes p (off + 10) (leGet p (off + 8) 2))

def writeLeafCell (p : Page) (off : Int) (key : Int) (value : List Nat) : Page :=
  putBytes (lePut (lePut p off.toNat 8 (u64ofInt key)) (off.toNat + 8) 2 value.length)
    (off.toNat + 10) value

/-- The pointer shift-down loop of `deleteLeafCell` / `shared.DeleteCell`:
`for j := i; j < n-1; j++ { SetCellPtr(p, j, CellPtr(p, j+1)) }`, written by
structural recursion on the iteration count `n - 1 - j`. -/
def delShift : Page → Nat → Nat → Page
  | p, _, 0 => p
  | p, j, c + 1 => delShift (btpage.SetCellPtr p j (btpage.CellPtr p (j + 1))) (j + 1) c

def deleteLeafCell (p : Page) (i : Nat) : Page :=
  let n := btpage.NumCells p
  btpage.SetNumCells (delShift p i (n - 1 - i)) ((n : Int) - 1)

def findLeafIdx (p : Page) (key : Int) (n : Nat) : Nat :=
  bsearch (fun m => (readLeafCell p m).1) key 0 n

structure BPTree where
  pg : Pager
  rootID : Nat

/-- The loop of `findLeaf`, with fuel for the unbounded Go `for` loop. -/
def findLeafLoop (key : Int) : Nat → Pager → Nat → Option (Nat × Pager)
  | 0, _, _ => none
  | fuel + 1, pg, curr =>
    match pager.Read pg curr with
    | none => none
    | some (p, pg1) =>
      if byteAt p btpage.OffType = btpage.TypeLeaf then some (curr, pg1)
      else
        let n := btpage.NumCells p
        let idx := findInternalIdx p key n
        findLeafLoop key fuel pg1 (internalChildAt p idx n)

def findLeaf (t : BPTree) (fuel : Nat) (key : Int) : Option (Nat × Pager) :=
  findLeafLoop key fuel t.pg t.rootID

def Get (t : BPTree) (fuel : Nat) (key : Int) : Option (Option (List Nat) × Pager) :=
  match findLeaf t fuel key with
  | none => none
  | some (leafID, pg) =>
    match pager.Read pg leafID with
    | none => none
    | some (p, pg1) =>
      let n := btpage.NumCells p
      let idx := findLeafIdx p key n
      if idx < n ∧ (readLeafCell p idx).1 = key then some (some (readLeafCell p idx).2, pg1)
      else some (none, pg1)

/-- The pointer shift-up loop of the in-page insert paths:
`for i := n; i > idx; i-- { SetCellPtr(p, i, CellPtr(p, i-1)) }`. -/
def shiftPtrs (p : Page) (idx : Nat) : Nat → Page
  | 0 => p
  | i + 1 =>
    if idx < i + 1 then
      shiftPtrs (btpage.SetCellPtr p (i + 1) (btpage.CellPtr p i)) idx i
    else p

/-- The cell-append loop of `splitLeaf` (both halves): allocate, write the
cell, record its pointer in consecutive slots starting at `slot`. -/
def writeLeafCells (p : Page) (slot : Nat) : List (Int × List Nat) → Page
  | [] => p
  | (k, v) :: rest =>
    let pOff := btpage.AllocCell p (leafCellSize v)
    let p1 := writeLeafCell pOff.1 pOff.2 k v
    let p2 := btpage.SetCellPtr p1 slot (u16ofInt pOff.2)
    writeLeafCells p2 (slot + 1) rest

def splitLeaf (pg : Pager) (id : Nat) (p : Page) (n idx : Nat) (key : Int)
    (value : List Nat) : (Int × Nat × Bool) × Pager :=
  let cells := (List.range n).map (readLeafCell p)
  let all := cells.take idx ++ (key, value) :: cells.drop idx
  let mid := (n + 1) / 2
  let pgNew := pager.Allocate pg
  let newID := pgNew.2
  let right0 := btpage.InitPage (fun _ => 0) btpage.TypeLeaf
  let oldNext := btpage.NextLeaf p
  let right1 := btpage.SetNextLeaf right0 oldNext
  let pA := btpage.SetNextLeaf p (u32ofNat newID)
  let pB := btpage.InitPage pA btpage.TypeLeaf
  let pC := btpage.SetNextLeaf pB (u32ofNat newID)
  let pD := writeLeafCells pC 0 (all.take mid)
  let pE := btpage.SetNumCells pD (mid : Int)
  let rightA := writeLeafCells right1 0 (all.drop mid)
  let rightB := btpage.SetNumCells rightA ((n : Int) + 1 - (mid : Int))
  let pg1 := pager.Write pgNew.1 id pE
  let pg2 := pager.Write pg1 newID rightB
  (((all.getD mid (0, [])).1, newID, true), pg2)

/-- Common tail of `insertLeaf` after the existing-key handling: in-page
insert when free space suffices, else split. -/
def insertLeafTail (pg : Pager) (id : Nat) (p : Page) (n idx : Nat) (key : Int)
    (value : List Nat) : (Int × Nat × Bool) × Pager :=
  if leafCellSize value ≤ btpage.FreeSpace p n then
    let p1 := shiftPtrs p idx n
    let pOff := btpage.AllocCell p1 (leafCellSize value)
    let p2 := writeLeafCell pOff.1 pOff.2 key value
    let p3 := btpage.SetCellPtr p2 idx (u16ofInt pOff.2)
    let p4 := btpage.SetNumCells p3 ((n : Int) + 1)
    ((0, 0, false), pager.Write pg id p4)
  else splitLeaf pg id p n idx key value

def insertLeaf (pg : Pager) (id : Nat) (p : Page) (key : Int) (value : List Nat) :
    (Int × Nat × Bool) × Pager :=
  let n := btpage.NumCells p
  let idx := findLeafIdx p key n
  if idx < n ∧ (readLeafCell p idx).1 = key then
    if value.length ≤ (readLeafCell p idx).2.length then
      ((0, 0, false),
        pager.Write pg id (writeLeafCell p (btpage.CellPtr p idx : Int) key value))
    else insertLeafTail pg id (deleteLeafCell p idx) (n - 1) idx key value
  else insertLeafTail pg id p n idx key value

/-- The cell-append loop of `splitInternal` (both halves). -/
def appendInternalCells (p : Page) : List (Int × Nat) → Page
  | [] => p
  | (k, lc) :: rest => appendInternalCells (appendInternalCell p k lc) rest

def splitInternal (pg : Pager) (id : Nat) (p : Page) (n idx : Nat) (key : Int)
    (rightChild : Nat) : (Int × Nat × Bool) × Pager :=
  let cells := (List.range n).map (readInternalCell p)
  let all0 := cells.take idx ++ (key, internalChildAt p idx n) :: cells.drop idx
  let all1 := if idx + 1 ≤ n then
      all0.set (idx + 1) ((all0.getD (idx + 1) (0, 0)).1, u32ofNat rightChild)
    else all0
  let oldRightmost := btpage.Rightmost p
  let all2 := if idx = n then all1.set n ((all1.getD n (0, 0)).1, oldRightmost) else all1
  let newRightmost := if idx = n then u32ofNat rightChild else oldRightmost
  let mid := (n + 1) / 2
  let median := all2.getD mid (0, 0)
  let pgNew := pager.Allocate pg
  let newID := pgNew.2
  let pL0 := btpage.SetRightmost (btpage.InitPage p btpage.TypeInternal) median.2
  let pL := appendInternalCells pL0 (all2.take mid)
  let pR0 := btpage.SetRightmost (btpage.InitPage (fun _ => 0) btpage.TypeInternal) newRightmost
  let pR := appendInternalCells pR0 (all2.drop (mid + 1))
  let pg1 := pager.Write pgNew.1 id pL
  let pg2 := pager.Write pg1 newID pR
  ((median.1, newID, true), pg2)

def insertInternal (pg : Pager) (id : Nat) (p : Page) (n idx : Nat) (key : Int)
    (rightChild : Nat) : (Int × Nat × Bool) × Pager :=
  if internalCellSize ≤ btpage.FreeSpace p n then
    let p1 := shiftPtrs p idx n
    let pOff := btpage.AllocCell p1 internalCellSize
    let p2 := writeInternalCell pOff.1 pOff.2 key (internalChildAt pOff.1 idx n)
    let p3 := btpage.SetCellPtr p2 idx (u16ofInt pOff.2)
    let p4 := if idx = n then btpage.SetRightmost p3 (u32ofNat rightChild)
      else lePut p3 (btpage.CellPtr p3 (idx + 1)) 4 (u32ofNat rightChild)
    let p5 := btpage.SetNumCells p4 ((n : Int) + 1)
    ((0, 0, false), pager.Write pg id p5)
  else splitInternal pg id p n idx key rightChild

def insertRec : Nat → Pager → Nat → Int → List Nat → Option ((Int × Nat × Bool) × Pager)
  | 0, _, _, _, _ => none
  | fuel + 1, pg, id, key, value =>
    match pager.Read pg id with
    | none => none
    | some (p, pg1) =>
      if byteAt p btpage.OffType = btpage.TypeLeaf then some (insertLeaf pg1 id p key value)
      else
        let n := btpage.NumCells p
        let idx := findInternalIdx p key n
        let childID := internalChildAt p idx n
        match insertRec fuel pg1 childID key value with
        | none => none
        | some ((mk, rc, split), pg2) =>
          if split = false then some ((0, 0, false), pg2)
          else
            match pager.Read pg2 id with
            | none => none
            | some (p2, pg3) =>
              let n2 := btpage.NumCells p2
              let idx2 := findInternalIdx p2 mk n2
              some (insertInternal pg3 id p2 n2 idx2 mk rc)

def writeHeader (t : BPTree) : Option BPTree :=
  match pager.Read t.pg 1 with
  | none => none
  | some (p, pg) => some { t with pg := pager.Write pg 1 (lePut p 0 4 t.rootID) }

def Insert (t : BPTree) (fuel : Nat) (key : Int) (value : List Nat) : Option BPTree :=
  match insertRec fuel t.pg t.rootID key value with
  | none => none
  | some ((mk, rightID, split), pg) =>
    if split = false then some { t with pg := pg }
    else
      let pgNew := pager.Allocate pg
      let p0 := btpage.InitPage (fun _ => 0) btpage.TypeInternal
      let p1 := btpage.SetRightmost p0 (u32ofNat rightID)
      let p2 := appendInternalCell p1 mk t.rootID
      let pg1 := pager.Write pgNew.1 pgNew.2 p2
      writeHeader { pg := pg1, rootID := u32ofNat pgNew.2 }

/-- `bptree.Open` on a fresh path (`pg.PageCount() <= 2` branch): reserve the
header block, allocate and initialise the root leaf, persist the header. -/
def openFresh (cachePages : Int) : BPTree :=
  let pg := pager.openFresh cachePages
  let pgA := pager.Allocate pg
  let pgB := pager.Allocate pgA.1
  let rootID := pgB.2
  let p := btpage.InitPage (fun _ => 0) btpage.TypeLeaf
  let pg1 := pager.Write pgB.1 rootID p
  let t : BPTree := { pg := pg1, rootID := u32ofNat rootID }
  (writeHeader t).getD t

end bptree

set_option maxRecDepth 20000
set_option maxHeartbeats 1000000

/-!
## Concrete executions

`scenarioA` runs the chained variant on a fresh file with cache capacity 0:
four inserts of 1000-byte values fill the root leaf to exactly 35 free
bytes, and a fifth insert of a 25-byte value (cell size exactly 35) is
accepted by the free-space check even though no room is left for its
2-byte cell pointer: the pointer slot and the new cell's content overlap.

Each `stepN` lemma evaluates one `Insert` of the run to an explicit literal
state, keeping every definitional-equality check small.
-/

namespace scenarioA

def vA : List Nat := List.replicate 1000 42
def vB : List Nat := List.replicate 25 43

def lit0 : bptree.BPTree := bptree.openFresh 0

def rp0 : Page := btpage.InitPage (fun _ => 0) btpage.TypeLeaf

def p1 : Page :=
  btpage.SetNumCells (btpage.SetCellPtr
    (bptree.writeLeafCell (btpage.SetCellContent rp0 3086) 3086 10 vA) 0 3086) 1

def pg1 : Pager := ⟨fun j => if j = 2 then some p1 else lit0.pg.file j, 3, 0, []⟩

def lit1 : bptree.BPTree := ⟨pg1, 2⟩

def p2 : Page :=
  btpage.SetNumCells (btpage.SetCellPtr
    (bptree.writeLeafCell (btpage.SetCellContent p1 2076) 2076 20 vA) 1 2076) 2

def pg2 : Pager := ⟨fun j => if j = 2 then some p2 else pg1.file j, 3, 0, []⟩

def lit2 : bptree.BPTree := ⟨pg2, 2⟩

def p3 : Page :=
  btpage.SetNumCells (btpage.SetCellPtr
    (bptree.writeLeafCell (btpage.SetCellContent p2 1066) 1066 30 vA) 2 1066) 3

def pg3 : Pager := ⟨fun j => if j = 2 then some p3 else pg2.file j, 3, 0, []⟩

def lit3 : bptree.BPTree := ⟨pg3, 2⟩

def p4 : Page :=
  btpage.SetNumCells (btpage.SetCellPtr
    (bptree.writeLeafCell (btpage.SetCellContent p3 56) 56 40 vA) 3 56) 4

def pg4 : Pager := ⟨fun j => if j = 2 then some p4 else pg3.file j, 3, 0, []⟩

def lit4 : bptree.BPTree := ⟨pg4, 2⟩

/-- The boundary insert: free space is 35 = cell size, the check `35 ≥ 35`
passes, and `AllocCell` hands out offset 21 although the pointer array now
ends at 23 — `SetCellPtr` then overwrites the first two key bytes. -/
def p5 : Page :=
  btpage.SetNumCells (btpage.SetCellPtr
    (bptree.writeLeafCell (btpage.SetCellContent p4 21) 21 2000 vB) 4 21) 5

def pg5 : Pager := ⟨fun j => if j = 2 then some p5 else pg4.file j, 3, 0, []⟩

def lit5 : bptree.BPTree := ⟨pg5, 2⟩

end scenarioA

/-!
`scenarioB` exercises the update path of `insertLeaf`: key 100 is stored
with a 300-byte value, then updated with a 1027-byte value.  The old cell
is deleted (content not reclaimed) and the reinsert hits the free-space
boundary exactly, so the new cell's pointer slot overwrites its key bytes.
-/

namespace scenarioB

def vA : List Nat := List.replicate 900 42
def vC : List Nat := List.replicate 300 44
def vU : List Nat := List.replicate 1027 45

def lit0 : bptree.BPTree := bptree.openFresh 0

def p1 : Page :=
  btpage.SetNumCells (btpage.SetCellPtr
    (bptree.writeLeafCell (btpage.SetCellContent scenarioA.rp0 3186) 3186 10 vA) 0 3186) 1

def pg1 : Pager := ⟨fun j => if j = 2 then some p1 else lit0.pg.file j, 3, 0, []⟩

def lit1 : bptree.BPTree := ⟨pg1, 2⟩

def p2 : Page :=
  btpage.SetNumCells (btpage.SetCellPtr
    (bptree.writeLeafCell (btpage.SetCellContent p1 2276) 2276 20 vA) 1 2276) 2

def pg2 : Pager := ⟨fun j => if j = 2 then some p2 else pg1.file j, 3, 0, []⟩

def lit2 : bptree.BPTree := ⟨pg2, 2⟩

def p3 : Page :=
  btpage.SetNumCells (btpage.SetCellPtr
    (bptree.writeLeafCell (btpage.SetCellContent p2 1366) 1366 30 vA) 2 1366) 3

def pg3 : Pager := ⟨fun j => if j = 2 then some p3 else pg2.file j, 3, 0, []⟩

def lit3 : bptree.BPTree := ⟨pg3, 2⟩

def p4 : Page :=
  btpage.SetNumCells (btpage.SetCellPtr
    (bptree.writeLeafCell (btpage.SetCellContent p3 1056) 1056 100 vC) 3 1056) 4

def pg4 : Pager := ⟨fun j => if j = 2 then some p4 else pg3.file j, 3, 0, []⟩

def lit4 : bptree.BPTree := ⟨pg4, 2⟩

/-- The grow-update: delete of the old cell (count 4 → 3, content top kept at
1056), then a fresh insert of cell size 1037 = free space; offset 19 collides
with pointer slot 3 at bytes 19–20. -/
def p5 : Page :=
  btpage.SetNumCells (btpage.SetCellPtr
    (bptree.writeLeafCell (btpage.SetCellContent (btpage.SetNumCells p4 3) 19) 19 100 vU)
      3 19) 4

def pg5 : Pager := ⟨fun j => if j = 2 then some p5 else pg4.file j, 3, 0, []⟩

def lit5 : bptree.BPTree := ⟨pg5, 2⟩

end scenarioB

/-- Decoded key list of a chained-variant leaf page. -/
def leafKeys (p : Page) : List Int :=
  (List.range (btpage.NumCells p)).map fun i => (bptree.readLeafCell p i).1

/-!
`scenarioC` builds a two-leaf chained tree (eight 450-byte-value inserts,
then a ninth that splits the root leaf), refills the left leaf and then
performs a boundary-sized insert into it.  The pointer-array overlap leaves
a cell pointer aimed into another cell's value bytes, so the left leaf
decodes a key of about 3·10^18 — larger than every key of the next leaf.
-/

namespace scenarioC

def vA : List Nat := List.replicate 450 42
def vB : List Nat := List.replicate 839 42

def lit0 : bptree.BPTree := bptree.openFresh 0

def p1 : Page :=
  btpage.SetNumCells (btpage.SetCellPtr
    (bptree.writeLeafCell (btpage.SetCellContent scenarioA.rp0 3636) 3636 1000 vA) 0 3636) 1

def pg1 : Pager := ⟨fun j => if j = 2 then some p1 else lit0.pg.file j, 3, 0, []⟩

def lit1 : bptree.BPTree := ⟨pg1, 2⟩

def p2 : Page :=
  btpage.SetNumCells (btpage.SetCellPtr
    (bptree.writeLeafCell (btpage.SetCellContent p1 3176) 3176 2000 vA) 1 3176) 2

def pg2 : Pager := ⟨fun j => if j = 2 then some p2 else pg1.file j, 3, 0, []⟩

def lit2 : bptree.BPTree := ⟨pg2, 2⟩

def p3 : Page :=
  btpage.SetNumCells (btpage.SetCellPtr
    (bptree.writeLeafCell (btpage.SetCellContent p2 2716) 2716 3000 vA) 2 2716) 3

def pg3 : Pager := ⟨fun j => if j = 2 then some p3 else pg2.file j, 3, 0, []⟩

def lit3 : bptree.BPTree := ⟨pg3, 2⟩

def p4 : Page :=
  btpage.SetNumCells (btpage.SetCellPtr
    (bptree.writeLeafCell (btpage.SetCellContent p3 2256) 2256 4000 vA) 3 2256) 4

def pg4 : Pager := ⟨fun j => if j = 2 then some p4 else pg3.file j, 3, 0, []⟩

def lit4 : bptree.BPTree := ⟨pg4, 2⟩

def p5 : Page :=
  btpage.SetNumCells (btpage.SetCellPtr
    (bptree.writeLeafCell (btpage.SetCellContent p4 1796) 1796 5000 vA) 4 1796) 5

def pg5 : Pager := ⟨fun j => if j = 2 then some p5 else pg4.file j, 3, 0, []⟩

def lit5 : bptree.BPTree := ⟨pg5, 2⟩

def p6 : Page :=
  btpage.SetNumCells (btpage.SetCellPtr
    (bptree.writeLeafCell (btpage.SetCellContent p5 1336) 1336 6000 vA) 5 1336) 6

def pg6 : Pager := ⟨fun j => if j = 2 then some p6 else pg5.file j, 3, 0, []⟩

def lit6 : bptree.BPTree := ⟨pg6, 2⟩

def p7 : Page :=
  btpage.SetNumCells (btpage.SetCellPtr
    (bptree.writeLeafCell (btpage.SetCellContent p6 876) 876 7000 vA) 6 876) 7

def pg7 : Pager := ⟨fun j => if j = 2 then some p7 else pg6.file j, 3, 0, []⟩

def lit7 : bptree.BPTree := ⟨pg7, 2⟩

def p8 : Page :=
  btpage.SetNumCells (btpage.SetCellPtr
    (bptree.writeLeafCell (btpage.SetCellContent p7 416) 416 8000 vA) 7 416) 8

def pg8 : Pager := ⟨fun j => if j = 2 then some p8 else pg7.file j, 3, 0, []⟩

def lit8 : bptree.BPTree := ⟨pg8, 2⟩

/-- The left half written by `splitLeaf` (cells 0–3 of the nine-cell array;
the copied values are the raw reads `splitLeaf` performs on the old page). -/
def pLeft : Page :=
  btpage.SetNumCells
    (bptree.writeLeafCells
      (btpage.SetNextLeaf (btpage.InitPage (btpage.SetNextLeaf p8 3) btpage.TypeLeaf) 3) 0
      [(1000, getBytes p8 3646 450), (2000, getBytes p8 3186 450),
       (3000, getBytes p8 2726 450), (4000, getBytes p8 2266 450)]) 4

/-- The right half (cells 4–8, copy-up keeps the median row). -/
def pRight : Page :=
  btpage.SetNumCells
    (bptree.writeLeafCells
      (btpage.SetNextLeaf (btpage.InitPage (fun _ => 0) btpage.TypeLeaf) 4294967295) 0
      [(5000, getBytes p8 1806 450), (6000, getBytes p8 1346 450),
       (7000, getBytes p8 886 450), (8000, getBytes p8 426 450), (9000, vA)]) 5

/-- The new root built by `Insert` after the split is promoted. -/
def pRoot : Page :=
  bptree.appendInternalCell
    (btpage.SetRightmost (btpage.InitPage (fun _ => 0) btpage.TypeInternal) 3) 5000 2

def hdr1 : Page := lePut (fun _ => 0) 0 4 2

def pgS : Pager :=
  pager.Write
    (pager.Write
      (pager.Write (pager.Write (pager.Allocate pg8).1 2 pLeft) 3 pRight |>
        fun pgx => (pager.Allocate pgx).1) 4 pRoot)
    1 (lePut hdr1 0 4 4)

def litS : bptree.BPTree := ⟨pgS, 4⟩

/-- Refilling the left leaf: inserts of keys 1100, 1200, 1300 (via the new
internal root), then the boundary insert of key 1500 whose cell size 849
exactly equals the remaining free space. -/
def p9 : Page :=
  btpage.SetNumCells (btpage.SetCellPtr
    (bptree.writeLeafCell (btpage.SetCellContent
      (btpage.SetCellPtr (btpage.SetCellPtr (btpage.SetCellPtr pLeft 4 2256) 3 2716) 2 3176)
      1796) 1796 1100 vA) 1 1796) 5

def pgT1 : Pager := pager.Write pgS 2 p9

def litT1 : bptree.BPTree := ⟨pgT1, 4⟩

def p10 : Page :=
  btpage.SetNumCells (btpage.SetCellPtr
    (bptree.writeLeafCell (btpage.SetCellContent
      (btpage.SetCellPtr (btpage.SetCellPtr (btpage.SetCellPtr p9 5 2256) 4 2716) 3 3176)
      1336) 1336 1200 vA) 2 1336) 6

def pgT2 : Pager := pager.Write pgT1 2 p10

def litT2 : bptree.BPTree := ⟨pgT2, 4⟩

def p11 : Page :=
  btpage.SetNumCells (btpage.SetCellPtr
    (bptree.writeLeafCell (btpage.SetCellContent
      (btpage.SetCellPtr (btpage.SetCellPtr (btpage.SetCellPtr p10 6 2256) 5 2716) 4 3176)
      876) 876 1300 vA) 3 876) 7

def pgT3 : Pager := pager.Write pgT2 2 p11

def litT3 : bptree.BPTree := ⟨pgT3, 4⟩

/-- The boundary insert: offset 27 collides with pointer slot 7 (bytes
27–28), which ends up holding the low bytes of key 1500 — so cell 7's
pointer aims at byte 1500, the middle of another cell's value. -/
def p12 : Page :=
  btpage.SetNumCells (btpage.SetCellPtr
    (bptree.writeLeafCell (btpage.SetCellContent
      (btpage.SetCellPtr (btpage.SetCellPtr (btpage.SetCellPtr p11 7 2256) 6 2716) 5 3176)
      27) 27 1500 vB) 4 27) 8

def pgT4 : Pager := pager.Write pgT3 2 p12

def litT4 : bptree.BPTree := ⟨pgT4, 4⟩

end scenarioC

/-!
`scenarioD` makes a split itself corrupt a page: two 20-byte-value cells and
two 1500-byte-value cells fill the root leaf; inserting key 50 with a
1049-byte value forces a split whose right half holds 2·1510 + 1059 = 4079
content bytes — more than fits above the 3-slot pointer array.  The last
cell is written at offset 17, its pointer slot overwrites its first key
bytes, and the decoded right-half keys are `[30, 40, 17]`: key 50 is lost.
-/

namespace scenarioD

def vS : List Nat := List.replicate 20 42
def vL : List Nat := List.replicate 1500 42
def vN : List Nat := List.replicate 1049 42

def lit0 : bptree.BPTree := bptree.openFresh 0

def p1 : Page :=
  btpage.SetNumCells (btpage.SetCellPtr
    (bptree.writeLeafCell (btpage.SetCellContent scenarioA.rp0 4066) 4066 10 vS) 0 4066) 1

def pg1 : Pager := ⟨fun j => if j = 2 then some p1 else lit0.pg.file j, 3, 0, []⟩

def lit1 : bptree.BPTree := ⟨pg1, 2⟩

def p2 : Page :=
  btpage.SetNumCells (btpage.SetCellPtr
    (bptree.writeLeafCell (btpage.SetCellContent p1 4036) 4036 20 vS) 1 4036) 2

def pg2 : Pager := ⟨fun j => if j = 2 then some p2 else pg1.file j, 3, 0, []⟩

def lit2 : bptree.BPTree := ⟨pg2, 2⟩

def p3 : Page :=
  btpage.SetNumCells (btpage.SetCellPtr
    (bptree.writeLeafCell (btpage.SetCellContent p2 2526) 2526 30 vL) 2 2526) 3

def pg3 : Pager := ⟨fun j => if j = 2 then some p3 else pg2.file j, 3, 0, []⟩

def lit3 : bptree.BPTree := ⟨pg3, 2⟩

def p4 : Page :=
  btpage.SetNumCells (btpage.SetCellPtr
    (bptree.writeLeafCell (btpage.SetCellContent p3 1016) 1016 40 vL) 3 1016) 4

def pg4 : Pager := ⟨fun j => if j = 2 then some p4 else pg3.file j, 3, 0, []⟩

def lit4 : bptree.BPTree := ⟨pg4, 2⟩

def pLeft : Page :=
  btpage.SetNumCells
    (bptree.writeLeafCells
      (btpage.SetNextLeaf (btpage.InitPage (btpage.SetNextLeaf p4 3) btpage.TypeLeaf) 3) 0
      [(10, getBytes p4 4076 20), (20, getBytes p4 4046 20)]) 2

def pRight : Page :=
  btpage.SetNumCells
    (bptree.writeLeafCells
      (btpage.SetNextLeaf (btpage.InitPage (fun _ => 0) btpage.TypeLeaf) 4294967295) 0
      [(30, getBytes p4 2536 1500), (40, getBytes p4 1026 1500), (50, vN)]) 3

def pRoot : Page :=
  bptree.appendInternalCell
    (btpage.SetRightmost (btpage.InitPage (fun _ => 0) btpage.TypeInternal) 3) 30 2

def pgS : Pager :=
  pager.Write
    (pager.Write
      (pager.Write (pager.Write (pager.Allocate pg4).1 2 pLeft) 3 pRight |>
        fun pgx => (pager.Allocate pgx).1) 4 pRoot)
    1 (lePut scenarioC.hdr1 0 4 4)

def litS : bptree.BPTree := ⟨pgS, 4⟩

end scenarioD

/-!
## The generic tree engine (`shared/tree.go`)

Go's `NodeAccessor` interface becomes a structure of functions; a Go `[]byte`
value that may be `nil` becomes `Option (List Nat)`.
-/

namespace shared

structure NodeAcc where
  CellSize : Bool → Option (List Nat) → Int
  ReadCell : Page → Nat → Bool → Int × Option (List Nat) × Nat
  WriteCell : Page → Int → Int → Option (List Nat) → Nat → Bool → Page
  OverwriteValue : Page → Nat → Option (List Nat) → Bool → Page
  CopyUpLeaves : Bool
  LinkLeaves : Page → Page → Nat → Nat → Page × Page

structure Tree where
  Pg : Pager
  RootID : Nat
  Acc : NodeAcc

def isLeaf (p : Page) : Bool := byteAt p btpage.OffType == btpage.TypeLeaf

/-- `Tree.AppendCell` (the receiver only supplies `t.Acc`). -/
def AppendCell (acc : NodeAcc) (p : Page) (key : Int) (value : Option (List Nat))
    (leftChild : Nat) : Page :=
  let n := btpage.NumCells p
  let pOff := btpage.AllocCell p (acc.CellSize (isLeaf p) value)
  let p1 := acc.WriteCell pOff.1 pOff.2 key value leftChild (isLeaf pOff.1)
  let p2 := btpage.SetCellPtr p1 n (u16ofInt pOff.2)
  btpage.SetNumCells p2 ((n : Int) + 1)

/-- `shared.DeleteCell`; its shift loop is written identically to
`bptree.deleteLeafCell`, so the same loop function is reused. -/
def DeleteCell (p : Page) (i : Nat) : Page :=
  let n := btpage.NumCells p
  btpage.SetNumCells (bptree.delShift p i (n - 1 - i)) ((n : Int) - 1)

def ChildAt (p : Page) (idx n : Nat) (acc : NodeAcc) : Nat :=
  if idx = n then btpage.Rightmost p else (acc.ReadCell p idx false).2.2

def FindIdx (p : Page) (key : Int) (n : Nat) (acc : NodeAcc) (leaf : Bool) : Nat :=
  bsearch (fun m => (acc.ReadCell p m leaf).1) key 0 n

/-- The loop of `Tree.Get`, with fuel for the unbounded Go `for`. -/
def GetLoop (acc : NodeAcc) (key : Int) : Nat → Pager → Nat → Option (Option (List Nat) × Pager)
  | 0, _, _ => none
  | fuel + 1, pg, curr =>
    match pager.Read pg curr with
    | none => none
    | some (p, pg1) =>
      let n := btpage.NumCells p
      let leaf := isLeaf p
      let idx := FindIdx p key n acc leaf
      if idx < n ∧ (acc.ReadCell p idx leaf).1 = key ∧ (acc.ReadCell p idx leaf).2.1.isSome then
        some ((acc.ReadCell p idx leaf).2.1, pg1)
      else if leaf then some (none, pg1)
      else GetLoop acc key fuel pg1 (ChildAt p idx n acc)

def Get (t : Tree) (fuel : Nat) (key : Int) : Option (Option (List Nat) × Pager) :=
  GetLoop t.Acc key fuel t.Pg t.RootID

/-- The cell-append loops of `splitNode` (both halves). -/
def AppendCells (acc : NodeAcc) : Page → List (Int × Option (List Nat) × Nat) → Page
  | p, [] => p
  | p, (k, v, lc) :: rest => AppendCells acc (AppendCell acc p k v lc) rest

/-- `Tree.splitNode` of `shared/tree.go` (the version in
`src/src/dbms/index/shared/tree.go`, which passes `oldRightmost` — not the
next-leaf pointer — to `LinkLeaves`). -/
def splitNode (acc : NodeAcc) (pg : Pager) (id : Nat) (p : Page) (n idx : Nat) (key : Int)
    (value : Option (List Nat)) (rightChild : Nat) :
    (Int × Option (List Nat) × Nat × Bool) × Pager :=
  let leaf := isLeaf p
  let pageType := byteAt p btpage.OffType
  let cells := (List.range n).map (fun i => acc.ReadCell p i leaf)
  let all0 := cells.take idx ++ (key, value, ChildAt p idx n acc) :: cells.drop idx
  let oldRightmost0 := btpage.Rightmost p
  let oldRightmost := if idx = n then u32ofNat rightChild else oldRightmost0
  let all1 :=
    if idx = n then all0
    else if leaf then all0
    else all0.set (idx + 1)
      ((all0.getD (idx + 1) (0, none, 0)).1, (all0.getD (idx + 1) (0, none, 0)).2.1,
        u32ofNat rightChild)
  let mid := (n + 1) / 2
  let median := all1.getD mid (0, none, 0)
  let pgNew := pager.Allocate pg
  let newID := pgNew.2
  let pL :=
    if leaf then AppendCells acc (btpage.InitPage p pageType) (all1.take mid)
    else
      AppendCells acc
        (btpage.SetRightmost (btpage.InitPage p pageType) median.2.2) (all1.take mid)
  let right0 : Page := btpage.InitPage (fun _ => 0) pageType
  let halves :=
    if leaf then
      let start := if acc.CopyUpLeaves then mid else mid + 1
      let pR := AppendCells acc right0 (all1.drop start)
      acc.LinkLeaves pL pR (u32ofNat newID) oldRightmost
    else
      (pL, AppendCells acc (btpage.SetRightmost right0 oldRightmost) (all1.drop (mid + 1)))
  let pg1 := pager.Write pgNew.1 id halves.1
  let pg2 := pager.Write pg1 newID halves.2
  ((median.1, median.2.1, newID, true), pg2)

/-- The chained variant's accessor (`BPTreeAcc` in the shared-engine
generation): cell formats are those of `bptree.go`; internal cells carry no
value.  `OverwriteValue` is modelled from the spec: it rewrites the slot's
value length and bytes in place (valid only for a no-larger value). -/
def BPTreeAcc : NodeAcc where
  CellSize := fun leaf v => if leaf then 8 + 2 + (v.getD []).length else 4 + 8
  ReadCell := fun p i leaf =>
    if leaf then ((bptree.readLeafCell p i).1, some (bptree.readLeafCell p i).2, 0)
    else ((bptree.readInternalCell p i).1, none, (bptree.readInternalCell p i).2)
  WriteCell := fun p off key value lc leaf =>
    if leaf then bptree.writeLeafCell p off key (value.getD [])
    else bptree.writeInternalCell p off key lc
  OverwriteValue := fun p i v _ =>
    putBytes (lePut p (btpage.CellPtr p i + 8) 2 (v.getD []).length)
      (btpage.CellPtr p i + 10) (v.getD [])
  CopyUpLeaves := true
  LinkLeaves := fun l r newRightID oldNext =>
    (btpage.SetNextLeaf l newRightID, btpage.SetNextLeaf r oldNext)

/-- Cell decoding of the non-chained variant (`BTreeAcc`): every cell, leaf
or internal, is `[leftChild:4][key:8][valueLen:2][value]`.  Modelled from the
spec: the shared-engine accessor bodies are not among the repository's
source files (only `CellSize`, `CopyUpLeaves`, `LinkLeaves` appear in the
thesis); the layout is the one stated in spec section 4.5. -/
def btAccReadCell (p : Page) (i : Nat) : Int × Option (List Nat) × Nat :=
  let off := btpage.CellPtr p i
  (i64ofNat (leGet p (off + 4) 8), some (getBytes p (off + 14) (leGet p (off + 12) 2)),
    leGet p off 4)

def btAccWriteCell (p : Page) (off : Int) (key : Int) (value : Option (List Nat))
    (lc : Nat) : Page :=
  putBytes
    (lePut (lePut (lePut p off.toNat 4 lc) (off.toNat + 4) 8 (u64ofInt key))
      (off.toNat + 12) 2 (value.getD []).length)
    (off.toNat + 14) (value.getD [])

/-- The non-chained variant's accessor: values in every node, push-up
splits, no leaf chaining. -/
def BTreeAcc : NodeAcc where
  CellSize := fun _ v => 4 + 8 + 2 + (v.getD []).length
  ReadCell := fun p i _ => btAccReadCell p i
  WriteCell := fun p off key v lc _ => btAccWriteCell p off key v lc
  OverwriteValue := fun p i v _ =>
    putBytes (lePut p (btpage.CellPtr p i + 12) 2 (v.getD []).length)
      (btpage.CellPtr p i + 14) (v.getD [])
  CopyUpLeaves := false
  LinkLeaves := fun l r _ _ => (l, r)

end shared

/-- A single Go byte store `p[i] = v`. -/
def setByte (p : Page) (i v : Nat) : Page := fun j => if j = i then v % 256 else p j

/-!
## The non-chained variant (`btree/btree.go`)

Slot-structured pages (20-byte slots from offset 11), values in a separate
append-only heap file, stack-based in-order range iterator.
-/

namespace btree

def order : Nat := 200
def maxKeys : Nat := order - 1
def minKeys : Nat := (order - 1) / 2

def typeInternal : Nat := 0
def typeLeaf : Nat := 1

def offType : Nat := 0
def offNumKeys : Nat := 1
def offFirstPtr : Nat := 3
def offSlots : Nat := 11

def slotSize : Nat := 20

structure BTree where
  pg : Pager
  valFile : Nat → Nat
  rootID : Nat
  valSize : Int

def numKeys (p : Page) : Nat := leGet p offNumKeys 2

def setNumKeys (p : Page) (n : Int) : Page := lePut p offNumKeys 2 (u16ofInt n)

def slotOffset (i : Nat) : Nat := offSlots + i * slotSize

def getSlot (p : Page) (i : Nat) : Int × Nat × Nat :=
  (i64ofNat (leGet p (slotOffset i) 8), leGet p (slotOffset i + 8) 8,
    leGet p (slotOffset i + 16) 4)

def putSlot (p : Page) (i : Nat) (key : Int) (ptr : Nat) (vlen : Nat) : Page :=
  lePut (lePut (lePut p (slotOffset i) 8 (u64ofInt key)) (slotOffset i + 8) 8 ptr)
    (slotOffset i + 16) 4 vlen

/-- `findKeyIndex`: index of the first key `≥ key` (binary search). -/
def findKeyIndex (p : Page) (key : Int) (n : Nat) : Nat :=
  bsearch (fun m => (getSlot p m).1) key 0 n

/-- Go `childPageID`-style child selection used throughout:
`idx == 0` means `firstPtr`, else the right child of slot `idx-1`. -/
def childAt (p : Page) (idx : Nat) : Nat :=
  if idx = 0 then leGet p offFirstPtr 8 else (getSlot p (idx - 1)).2.1

/-- The slot shift-up loop `for i := n; i > idx; i-- putSlot(pg, i, getSlot(pg, i-1))`. -/
def shiftSlots (p : Page) (idx : Nat) : Nat → Page
  | 0 => p
  | i + 1 =>
    if idx < i + 1 then
      shiftSlots
        (putSlot p (i + 1) (getSlot p i).1 (getSlot p i).2.1 (getSlot p i).2.2) idx i
    else p

/-- The split copy loop: `count` slots from `srcIdx` of the (unchanging
source indices of) `p` to consecutive destination slots from `dstIdx`. -/
def copySlots (src : Page) (dst : Page) (srcIdx dstIdx : Nat) : Nat → Page
  | 0 => dst
  | c + 1 =>
    copySlots src
      (putSlot dst dstIdx (getSlot src srcIdx).1 (getSlot src srcIdx).2.1
        (getSlot src srcIdx).2.2)
      (srcIdx + 1) (dstIdx + 1) c

def appendValue (t : BTree) (value : List Nat) : Int × BTree :=
  let offset := t.valSize
  (offset, { t with valFile := putBytes t.valFile offset.toNat value,
                    valSize := t.valSize + value.length })

def readValue (t : BTree) (offset : Int) (length : Nat) : List Nat :=
  getBytes t.valFile offset.toNat length

def splitLeaf (pg : Pager) (nodeID : Nat) (p : Page) (n : Nat) : (Int × Nat × Bool) × Pager :=
  let mid := n / 2
  let pgNew := pager.Allocate pg
  let newID := pgNew.2
  let newPg0 : Page := setByte (fun _ => 0) offType typeLeaf
  let newPg1 := copySlots p newPg0 mid 0 (n - mid)
  let newPg2 := setNumKeys newPg1 ((n : Int) - (mid : Int))
  let p1 := setNumKeys p (mid : Int)
  let pg1 := pager.Write pgNew.1 nodeID p1
  let pg2 := pager.Write pg1 newID newPg2
  (((getSlot newPg2 0).1, newID, true), pg2)

def insertLeaf (pg : Pager) (nodeID : Nat) (p : Page) (n : Nat) (key : Int)
    (valOffset : Int) (valLen : Nat) : (Int × Nat × Bool) × Pager :=
  let idx := findKeyIndex p key n
  if idx < n ∧ (getSlot p idx).1 = key then
    ((0, 0, false), pager.Write pg nodeID (putSlot p idx key (u64ofInt valOffset) valLen))
  else
    let p1 := shiftSlots p idx n
    let p2 := putSlot p1 idx key (u64ofInt valOffset) valLen
    let p3 := setNumKeys p2 ((n : Int) + 1)
    if n + 1 ≤ maxKeys then ((0, 0, false), pager.Write pg nodeID p3)
    else splitLeaf pg nodeID p3 (n + 1)

def splitInternal (pg : Pager) (nodeID : Nat) (p : Page) (n : Nat) :
    (Int × Nat × Bool) × Pager :=
  let mid := n / 2
  let s := getSlot p mid
  let pgNew := pager.Allocate pg
  let newID := pgNew.2
  let newPg0 : Page := setByte (fun _ => 0) offType typeInternal
  let newPg1 := lePut newPg0 offFirstPtr 8 s.2.1
  let newPg2 := copySlots p newPg1 (mid + 1) 0 (n - (mid + 1))
  let newPg3 := setNumKeys newPg2 ((n : Int) - ((mid : Int) + 1))
  let p1 := setNumKeys p (mid : Int)
  let pg1 := pager.Write pgNew.1 nodeID p1
  let pg2 := pager.Write pg1 newID newPg3
  ((s.1, newID, true), pg2)

/-- The tail of `insertInternal` after the recursive `insertNode` call
reports a split: insert the promoted key and new right child here. -/
def insertInternalTail (pg : Pager) (nodeID : Nat) (p : Page) (n idx : Nat)
    (midKey : Int) (newChildID : Nat) : (Int × Nat × Bool) × Pager :=
  let p1 := shiftSlots p idx n
  let p2 := putSlot p1 idx midKey newChildID 0
  let p3 := setNumKeys p2 ((n : Int) + 1)
  if n + 1 ≤ maxKeys then ((0, 0, false), pager.Write pg nodeID p3)
  else splitInternal pg nodeID p3 (n + 1)

/-- `insertNode` with the child-selection and recursion of `insertInternal`
inlined (fuel bounds the recursion depth). -/
def insertNode : Nat → Pager → Nat → Int → Int → Nat → Option ((Int × Nat × Bool) × Pager)
  | 0, _, _, _, _, _ => none
  | fuel + 1, pg, nodeID, key, valOffset, valLen =>
    match pager.Read pg nodeID with
    | none => none
    | some (p, pg1) =>
      let n := numKeys p
      if byteAt p offType = typeLeaf then some (insertLeaf pg1 nodeID p n key valOffset valLen)
      else
        let idx := findKeyIndex p key n
        let childID := childAt p idx
        match insertNode fuel pg1 childID key valOffset valLen with
        | none => none
        | some ((midKey, newChildID, split), pg2) =>
          if split = false then some ((0, 0, false), pg2)
          else some (insertInternalTail pg2 nodeID p n idx midKey newChildID)

def initLeaf (pg : Pager) (id : Nat) : Pager :=
  pager.Write pg id (lePut (setByte (fun _ => 0) offType typeLeaf) offNumKeys 2 0)

def initInternal (pg : Pager) (id leftChild : Nat) (key : Int) (rightChild : Nat) : Pager :=
  let p0 := setByte (fun _ => 0) offType typeInternal
  let p1 := lePut p0 offNumKeys 2 1
  let p2 := lePut p1 offFirstPtr 8 leftChild
  pager.Write pg id (putSlot p2 0 key rightChild 0)

def writeHeader (t : BTree) : Option BTree :=
  match pager.Read t.pg 1 with
  | none => none
  | some (p, pg) => some { t with pg := pager.Write pg 1 (lePut p 0 8 t.rootID) }

def Insert (t : BTree) (fuel : Nat) (key : Int) (value : List Nat) : Option BTree :=
  let av := appendValue t value
  let t1 := av.2
  match insertNode fuel t1.pg t1.rootID key av.1 (u32ofNat value.length) with
  | none => none
  | some ((midKey, newPageID, split), pg) =>
    if split = false then some { t1 with pg := pg }
    else
      let pgNew := pager.Allocate pg
      let pg1 := initInternal pgNew.1 pgNew.2 t1.rootID midKey newPageID
      writeHeader { t1 with pg := pg1, rootID := pgNew.2 }

/-- `btree.Open` on a fresh path: pager header, then the tree's header page
and the initial root leaf; the value heap starts empty. -/
def openFresh (cachePages : Int) : BTree :=
  let pg := pager.openFresh cachePages
  let pgA := pager.Allocate pg
  let pgB := pager.Allocate pgA.1
  let rootID := pgB.2
  let pg1 := initLeaf pgB.1 rootID
  let t : BTree := { pg := pg1, valFile := fun _ => 0, rootID := rootID, valSize := 0 }
  (writeHeader t).getD t

/-- The stack-based in-order iterator.  The Go slice's last element (the
top frame) is the head of `stack`; a frame is `(pageID, idx)`. -/
structure RangeIter where
  tree : BTree
  endKey : Int
  stack : List (Nat × Nat)
  key : Int
  val : List Nat
  err : Bool
  done : Bool

/-- The descent loop of `seekToFirst`, pushing a frame per visited node. -/
def seekLoop (start : Int) : Nat → Pager → Nat → List (Nat × Nat) →
    Option (List (Nat × Nat) × Pager)
  | 0, _, _, _ => none
  | fuel + 1, pg, nodeID, stack =>
    match pager.Read pg nodeID with
    | none => none
    | some (p, pg1) =>
      let n := numKeys p
      let idx := findKeyIndex p start n
      if byteAt p offType = typeLeaf then some ((nodeID, idx) :: stack, pg1)
      else seekLoop start fuel pg1 (childAt p idx) ((nodeID, idx) :: stack)

def Range (t : BTree) (fuel : Nat) (start endKey : Int) : Option RangeIter :=
  match seekLoop start fuel t.pg t.rootID [] with
  | none => none
  | some (stack, pg) =>
    some { tree := { t with pg := pg }, endKey := endKey, stack := stack,
           key := 0, val := [], err := false, done := false }

/-- The body loop of `RangeIterator.Next`. -/
def nextLoop : Nat → RangeIter → Option (RangeIter × Bool)
  | 0, _ => none
  | fuel + 1, it =>
    match it.stack with
    | [] => some (it, false)
    | (pageID, idx) :: rest =>
      match pager.Read it.tree.pg pageID with
      | none => some ({ it with err := true }, false)
      | some (p, pg1) =>
        let it1 := { it with tree := { it.tree with pg := pg1 } }
        let n := numKeys p
        if byteAt p offType = typeLeaf then
          if n ≤ idx then nextLoop fuel { it1 with stack := rest }
          else
            let s := getSlot p idx
            if it.endKey < s.1 then some ({ it1 with done := true }, false)
            else
              some ({ it1 with stack := (pageID, idx + 1) :: rest, key := s.1,
                                val := readValue it1.tree (s.2.1 : Int) s.2.2 }, true)
        else
          if n < idx then nextLoop fuel { it1 with stack := rest }
          else
            nextLoop fuel
              { it1 with stack := (childAt p idx, 0) :: (pageID, idx + 1) :: rest }

def Next (it : RangeIter) (fuel : Nat) : Option (RangeIter × Bool) :=
  if it.done ∨ it.stack.isEmpty then some (it, false) else nextLoop fuel it

end btree

/-!
The chained variant's range iterator (`bptree.RangeIterator`): `Range` seeks
the first leaf that can hold `start` and `Next` walks cells and the leaf
chain, stopping as soon as a decoded cell key exceeds `end`.
-/

namespace bptree

/-- `RangeIterator` of the chained variant (Go's `end` field is `endKey`). -/
structure RangeIterator where
  tree : BPTree
  endKey : Int
  leafID : Nat
  idx : Nat
  k : Int
  v : List Nat
  err : Bool

def Range (t : BPTree) (fuel : Nat) (start endKey : Int) : Option RangeIterator :=
  match findLeaf t fuel start with
  | none => none
  | some (leafID, pg1) =>
    match pager.Read pg1 leafID with
    | none => none
    | some (p, pg2) =>
      some { tree := { t with pg := pg2 }, endKey := endKey, leafID := leafID,
             idx := findLeafIdx p start (btpage.NumCells p), k := 0, v := [], err := false }

/-- The body loop of the chained `Next` (fuel bounds the
`for leafID != InvalidPage` chain walk). -/
def nextLoop : Nat → RangeIterator → Option (RangeIterator × Bool)
  | 0, _ => none
  | fuel + 1, it =>
    if it.leafID = btpage.InvalidPage then some (it, false)
    else
      match pager.Read it.tree.pg it.leafID with
      | none => some ({ it with err := true }, false)
      | some (p, pg1) =>
        let it1 := { it with tree := { it.tree with pg := pg1 } }
        let n := btpage.NumCells p
        if it.idx < n then
          let c := readLeafCell p it.idx
          if it.endKey < c.1 then some (it1, false)
          else some ({ it1 with k := c.1, v := c.2, idx := it.idx + 1 }, true)
        else nextLoop fuel { it1 with leafID := btpage.NextLeaf p, idx := 0 }

def Next (it : RangeIterator) (fuel : Nat) : Option (RangeIterator × Bool) :=
  nextLoop fuel it

end bptree

/-!
The iterator state of `Range(4000, 9000)` on scenarioC's final tree: the
seek lands on leaf 2 at cell 7 — the corrupted cell, whose decoded key
3038287259199220266 exceeds 9000 — so every `Next` call returns false at
once and the iterator yields nothing, although keys 5000–9000 are stored
in the next leaf and lie inside [4000, 9000].
-/

namespace scenarioC

def iterC0 : bptree.RangeIterator := ⟨litT4, 9000, 2, 7, 0, [], false⟩

end scenarioC

/-!
## Auxiliary predicates and witness inputs for the universal theorems
-/

/-- Cache coherence: every cached block equals the on-disk block, so a
cache hit returns what a disk read would. -/
def coherent (pg : Pager) : Prop := ∀ e ∈ pg.cache, pg.file e.1 = some e.2

/-- Read a list of blocks in order through the cache (the C8 workload). -/
def readSeq : Pager → List Nat → Option Pager
  | pg, [] => some pg
  | pg, id :: rest =>
    match pager.Read pg id with
    | none => none
    | some (_, pg1) => readSeq pg1 rest

/-- Height-bounded well-formedness of a shared-engine subtree in which no
cell holding `key` with a present value exists: every reachable node is
readable, no cell of any node matches `key`, and internal nodes have valid
children under every child index the descent can take. -/
def ValidAbsent (acc : shared.NodeAcc) (f : Nat → Option Page) : Nat → Nat → Int → Prop
  | 0, _, _ => False
  | h + 1, id, key =>
    ∃ p, f id = some p ∧
      (∀ i, i < btpage.NumCells p →
        ¬((acc.ReadCell p i (shared.isLeaf p)).1 = key ∧
          (acc.ReadCell p i (shared.isLeaf p)).2.1.isSome = true)) ∧
      (shared.isLeaf p = true ∨
        ∀ idx, idx ≤ btpage.NumCells p →
          ValidAbsent acc f h (shared.ChildAt p idx (btpage.NumCells p) acc) key)

/-- The same predicate for the chained variant's `Get` descent. -/
def ValidAbsentBP (f : Nat → Option Page) : Nat → Nat → Int → Prop
  | 0, _, _ => False
  | h + 1, id, key =>
    ∃ p, f id = some p ∧
      (if byteAt p btpage.OffType = btpage.TypeLeaf then
        ∀ i, i < btpage.NumCells p → (bptree.readLeafCell p i).1 ≠ key
      else
        ∀ idx, idx ≤ btpage.NumCells p →
          ValidAbsentBP f h (bptree.internalChildAt p idx (btpage.NumCells p)) key)

/-- The root leaf written by a fresh open (C7's witness tree). -/
def c7leaf : Page := btpage.InitPage (fun _ => 0) btpage.TypeLeaf

/-- C8 witness pager: every block exists on disk, capacity 2, cold cache. -/
def c8pg : Pager := ⟨fun _ => some (fun _ => 0), 8, 2, []⟩

/-- C9 witness page in the chained variant's leaf layout: cells with keys
10 and 20 at offsets 100 and 200. -/
def c9p : Page :=
  bptree.writeLeafCell
    (bptree.writeLeafCell
      (btpage.SetCellPtr (btpage.SetCellPtr (fun _ => 0) 0 100) 1 200) 100 10 [])
    200 20 []

/-- C9 witness page in the non-chained variant's slot layout: keys 10, 20. -/
def c9q : Page := btree.putSlot (btree.putSlot (fun _ => 0) 0 10 0 0) 1 20 0 0

/-- C10 witness page: three cells with pointers 3000, 2000, 1000 and
content top 1000. -/
def c10p : Page :=
  btpage.SetCellContent
    (btpage.SetNumCells
      (btpage.SetCellPtr (btpage.SetCellPtr (btpage.SetCellPtr (fun _ => 0) 0 3000) 1 2000)
        2 1000) 3) 1000

/-! ## Step lemmas and claim theorems -/

namespace scenarioA
theorem a_step1 : bptree.Insert lit0 5 10 vA = some lit1 := by rfl

theorem a_step2 : bptree.Insert lit1 5 20 vA = some lit2 := by rfl

theorem a_step3 : bptree.Insert lit2 5 30 vA = some lit3 := by rfl

theorem a_step4 : bptree.Insert lit3 5 40 vA = some lit4 := by rfl

theorem a_step5 : bptree.Insert lit4 5 2000 vB = some lit5 := by rfl

/-- The key stored by the fifth insert decodes as 21, not 2000: its low two
bytes were overwritten by the cell pointer. -/
theorem a_corrupt_key : (bptree.readLeafCell p5 4).1 = 21 := by rfl

theorem a_get_lost : (bptree.Get lit5 5 2000).map Prod.fst = some none := by rfl

/-- Before the boundary insert the round-trip still holds (value compared by
length to keep the check small; the bytes are all equal to 42). -/
theorem a_get_ok_before :
    (bptree.Get lit4 5 40).map (fun r => r.1.map List.length) = some (some 1000) := by rfl

theorem a_overlap : btpage.NumCells p5 = 5 ∧ btpage.CellContent p5 = 21 := ⟨rfl, rfl⟩

end scenarioA
namespace scenarioB
theorem b_step1 : bptree.Insert lit0 5 10 vA = some lit1 := by rfl

theorem b_step2 : bptree.Insert lit1 5 20 vA = some lit2 := by rfl

theorem b_step3 : bptree.Insert lit2 5 30 vA = some lit3 := by rfl

theorem b_step4 : bptree.Insert lit3 5 100 vC = some lit4 := by rfl

theorem b_step5 : bptree.Insert lit4 5 100 vU = some lit5 := by rfl

/-- Before the grow-update, `Get 100` finds the 300-byte value. -/
theorem b_get_ok_before :
    (bptree.Get lit4 5 100).map (fun r => r.1.map List.length) = some (some 300) := by rfl

/-- After the grow-update the stored key decodes as 19 and the binding for
key 100 is gone. -/
theorem b_corrupt_key : (bptree.readLeafCell p5 3).1 = 19 := by rfl

theorem b_get_lost : (bptree.Get lit5 5 100).map Prod.fst = some none := by rfl

end scenarioB
namespace scenarioC
theorem c_step1 : bptree.Insert lit0 5 1000 vA = some lit1 := by rfl

theorem c_step2 : bptree.Insert lit1 5 2000 vA = some lit2 := by rfl

theorem c_step3 : bptree.Insert lit2 5 3000 vA = some lit3 := by rfl

theorem c_step4 : bptree.Insert lit3 5 4000 vA = some lit4 := by rfl

theorem c_step5 : bptree.Insert lit4 5 5000 vA = some lit5 := by rfl

theorem c_step6 : bptree.Insert lit5 5 6000 vA = some lit6 := by rfl

theorem c_step7 : bptree.Insert lit6 5 7000 vA = some lit7 := by rfl

theorem c_step8 : bptree.Insert lit7 5 8000 vA = some lit8 := by rfl

set_option maxHeartbeats 8000000 in
theorem c_step9 : bptree.Insert lit8 5 9000 vA = some litS := by rfl

set_option maxHeartbeats 4000000 in
theorem c_step10 : bptree.Insert litS 5 1100 vA = some litT1 := by rfl

set_option maxHeartbeats 4000000 in
theorem c_step11 : bptree.Insert litT1 5 1200 vA = some litT2 := by rfl

set_option maxHeartbeats 4000000 in
theorem c_step12 : bptree.Insert litT2 5 1300 vA = some litT3 := by rfl

set_option maxHeartbeats 4000000 in
theorem c_step13 : bptree.Insert litT3 5 1500 vB = some litT4 := by rfl

set_option maxHeartbeats 4000000 in
theorem left_keys :
    leafKeys p12 = [1000, 1100, 1200, 1300, 1500, 2000, 3000, 3038287259199220266] := by
  rfl

set_option maxHeartbeats 4000000 in
theorem right_keys : leafKeys pRight = [5000, 6000, 7000, 8000, 9000] := by rfl

theorem left_next : btpage.NextLeaf p12 = 3 ∧ btpage.NextLeaf pRight = btpage.InvalidPage :=
  ⟨rfl, rfl⟩

theorem final_pages : litT4.pg.file 2 = some p12 ∧ litT4.pg.file 3 = some pRight :=
  ⟨rfl, rfl⟩

end scenarioC
namespace scenarioD
theorem d_step1 : bptree.Insert lit0 5 10 vS = some lit1 := by rfl

theorem d_step2 : bptree.Insert lit1 5 20 vS = some lit2 := by rfl

theorem d_step3 : bptree.Insert lit2 5 30 vL = some lit3 := by rfl

theorem d_step4 : bptree.Insert lit3 5 40 vL = some lit4 := by rfl

set_option maxHeartbeats 8000000 in
theorem d_step5 : bptree.Insert lit4 5 50 vN = some litS := by rfl

set_option maxHeartbeats 2000000 in
theorem split_left_keys : leafKeys pLeft = [10, 20] := by rfl

set_option maxHeartbeats 2000000 in
theorem split_right_keys : leafKeys pRight = [30, 40, 17] := by rfl

theorem split_promoted :
    (bptree.readInternalCell pRoot 0).1 = 30 ∧ btpage.Rightmost pRoot = 3 ∧
      btpage.NumCells pRoot = 1 :=
  ⟨rfl, rfl, rfl⟩

theorem split_pages : litS.pg.file 2 = some pLeft ∧ litS.pg.file 3 = some pRight :=
  ⟨rfl, rfl⟩

end scenarioD
/-- Membership witness for the C5 violation: the corrupted left-leaf key
3038287259199220266 is not smaller than right-leaf key 5000. -/
theorem scenarioC_chain_violation :
    ∃ a ∈ leafKeys scenarioC.p12, ∃ b ∈ leafKeys scenarioC.pRight, ¬ a < b := by
  refine ⟨3038287259199220266, ?_, 5000, ?_, by decide⟩
  · rw [scenarioC.left_keys]; decide
  · rw [scenarioC.right_keys]; decide

/-- Pre-split decoded keys of scenarioD's overflowing root leaf. -/
theorem scenarioD_pre_keys : leafKeys scenarioD.p4 = [10, 20, 30, 40] := by rfl

/-- **C1** — the claim "after Insert(k, v) succeeds, Get(k) returns exactly v,
both immediately and after further unrelated inserts" fails on the code: on a
fresh chained-variant index, after four 1000-byte inserts, the insert of key
2000 (25-byte value, cell size exactly equal to the remaining free space) is
accepted without a split, its cell pointer overwrites the first two key
bytes, and `Get 2000` immediately afterwards returns absent (`none`) with a
nil error even though the `Insert` returned success. -/
theorem c1_roundtrip_violated :
    ∃ t1 t2 t3 t4 t5 : bptree.BPTree,
      bptree.Insert (bptree.openFresh 0) 5 10 scenarioA.vA = some t1 ∧
      bptree.Insert t1 5 20 scenarioA.vA = some t2 ∧
      bptree.Insert t2 5 30 scenarioA.vA = some t3 ∧
      bptree.Insert t3 5 40 scenarioA.vA = some t4 ∧
      bptree.Insert t4 5 2000 scenarioA.vB = some t5 ∧
      (bptree.Get t5 5 2000).map Prod.fst = some none :=
  ⟨_, _, _, _, _, scenarioA.a_step1, scenarioA.a_step2, scenarioA.a_step3, scenarioA.a_step4,
    scenarioA.a_step5, scenarioA.a_get_lost⟩

/-- **C6** — the claim "the free-space-top offset is always at least the end
offset of the cell pointer array (13 + 2·cellCount)" fails on the code: the
free-space check of the insert path reserves the cell's content bytes but not
its 2-byte pointer slot, so after scenarioA's boundary insert the root page
holds 5 cells with content top 21 < 13 + 2·5 = 23, and the pointer array
overlaps (and corrupts) the newest cell's content. -/
theorem c6_overlap_invariant_violated :
    ∃ (t1 t2 t3 t4 t5 : bptree.BPTree) (p : Page),
      bptree.Insert (bptree.openFresh 0) 5 10 scenarioA.vA = some t1 ∧
      bptree.Insert t1 5 20 scenarioA.vA = some t2 ∧
      bptree.Insert t2 5 30 scenarioA.vA = some t3 ∧
      bptree.Insert t3 5 40 scenarioA.vA = some t4 ∧
      bptree.Insert t4 5 2000 scenarioA.vB = some t5 ∧
      t5.pg.file 2 = some p ∧
      btpage.NumCells p = 5 ∧
      btpage.CellContent p < btpage.OffCellPtrs + btpage.CellPtrSize * btpage.NumCells p :=
  ⟨_, _, _, _, _, scenarioA.p5, scenarioA.a_step1, scenarioA.a_step2, scenarioA.a_step3,
    scenarioA.a_step4, scenarioA.a_step5, rfl, rfl, by decide⟩

/-- **C4** — the claim "inserting a larger value for an existing key deletes
the old cell and reinserts, so afterwards exactly one binding exists and
Get(k) returns v_new" fails on the code: key 100 holds a 300-byte value;
updating it with a 1027-byte value (larger) deletes the old cell and the
reinsert lands exactly on the free-space boundary, where the new cell's
pointer slot overwrites its key bytes — afterwards `Get 100` returns absent
instead of the new value. -/
theorem c4_grow_update_violated :
    ∃ t1 t2 t3 t4 t5 : bptree.BPTree,
      bptree.Insert (bptree.openFresh 0) 5 10 scenarioB.vA = some t1 ∧
      bptree.Insert t1 5 20 scenarioB.vA = some t2 ∧
      bptree.Insert t2 5 30 scenarioB.vA = some t3 ∧
      bptree.Insert t3 5 100 scenarioB.vC = some t4 ∧
      (bptree.Get t4 5 100).map (fun r => r.1.map List.length) = some (some 300) ∧
      300 < scenarioB.vU.length ∧
      bptree.Insert t4 5 100 scenarioB.vU = some t5 ∧
      (bptree.Get t5 5 100).map Prod.fst = some none :=
  ⟨_, _, _, _, _, scenarioB.b_step1, scenarioB.b_step2, scenarioB.b_step3, scenarioB.b_step4,
    scenarioB.b_get_ok_before, by decide, scenarioB.b_step5, scenarioB.b_get_lost⟩

/-- **C5** — the claim "after every sequence of Inserts the chained variant's
leaves form a strictly ascending chain: every key in a leaf is smaller than
every key in the leaf its next pointer designates" fails on the code: after
thirteen inserts (one of which splits the root leaf into leaves 2 → 3), the
boundary-sized insert of key 1500 into leaf 2 leaves a cell pointer aimed
into another cell's value bytes, so leaf 2 decodes key 3038287259199220266,
which is not smaller than key 5000 stored in its next leaf. -/
theorem c5_chain_order_violated :
    ∃ (t1 t2 t3 t4 t5 t6 t7 t8 t9 t10 t11 t12 t13 : bptree.BPTree) (pL pR : Page),
      bptree.Insert (bptree.openFresh 0) 5 1000 scenarioC.vA = some t1 ∧
      bptree.Insert t1 5 2000 scenarioC.vA = some t2 ∧
      bptree.Insert t2 5 3000 scenarioC.vA = some t3 ∧
      bptree.Insert t3 5 4000 scenarioC.vA = some t4 ∧
      bptree.Insert t4 5 5000 scenarioC.vA = some t5 ∧
      bptree.Insert t5 5 6000 scenarioC.vA = some t6 ∧
      bptree.Insert t6 5 7000 scenarioC.vA = some t7 ∧
      bptree.Insert t7 5 8000 scenarioC.vA = some t8 ∧
      bptree.Insert t8 5 9000 scenarioC.vA = some t9 ∧
      bptree.Insert t9 5 1100 scenarioC.vA = some t10 ∧
      bptree.Insert t10 5 1200 scenarioC.vA = some t11 ∧
      bptree.Insert t11 5 1300 scenarioC.vA = some t12 ∧
      bptree.Insert t12 5 1500 scenarioC.vB = some t13 ∧
      t13.pg.file 2 = some pL ∧
      t13.pg.file 3 = some pR ∧
      btpage.NextLeaf pL = 3 ∧
      ∃ a ∈ leafKeys pL, ∃ b ∈ leafKeys pR, ¬ a < b :=
  ⟨_, _, _, _, _, _, _, _, _, _, _, _, _, scenarioC.p12, scenarioC.pRight,
    scenarioC.c_step1, scenarioC.c_step2, scenarioC.c_step3, scenarioC.c_step4, scenarioC.c_step5,
    scenarioC.c_step6, scenarioC.c_step7, scenarioC.c_step8, scenarioC.c_step9, scenarioC.c_step10,
    scenarioC.c_step11, scenarioC.c_step12, scenarioC.c_step13, scenarioC.final_pages.1,
    scenarioC.final_pages.2, scenarioC.left_next.1, scenarioC_chain_violation⟩

/-- **C3 counterexample** — the claim "the union of keys across the two pages
produced by a split, plus the promoted key, equals the pre-split key set plus
the new key" fails on the code: splitting scenarioD's root leaf (pre-split
keys 10, 20, 30, 40; new key 50) produces left keys [10, 20] and right keys
[30, 40, 17] — the right half's 4079 content bytes do not fit above its
pointer array, the last cell's pointer slot overwrites its key bytes, and
key 50 is lost while a spurious key 17 appears. -/
theorem c3_split_key_preservation_violated :
    ∃ (t1 t2 t3 t4 t5 : bptree.BPTree) (pL pR : Page),
      bptree.Insert (bptree.openFresh 0) 5 10 scenarioD.vS = some t1 ∧
      bptree.Insert t1 5 20 scenarioD.vS = some t2 ∧
      bptree.Insert t2 5 30 scenarioD.vL = some t3 ∧
      bptree.Insert t3 5 40 scenarioD.vL = some t4 ∧
      leafKeys scenarioD.p4 = [10, 20, 30, 40] ∧
      bptree.Insert t4 5 50 scenarioD.vN = some t5 ∧
      t5.pg.file 2 = some pL ∧
      t5.pg.file 3 = some pR ∧
      leafKeys pL = [10, 20] ∧
      leafKeys pR = [30, 40, 17] ∧
      (leafKeys pL ++ leafKeys pR).toFinset ∪ {30} ≠
        ({10, 20, 30, 40} : Finset Int) ∪ {50} := by
  refine ⟨_, _, _, _, _, scenarioD.pLeft, scenarioD.pRight,
    scenarioD.d_step1, scenarioD.d_step2, scenarioD.d_step3, scenarioD.d_step4,
    scenarioD_pre_keys, scenarioD.d_step5, rfl, rfl,
    scenarioD.split_left_keys, scenarioD.split_right_keys, ?_⟩
  rw [scenarioD.split_left_keys, scenarioD.split_right_keys]
  decide

namespace scenarioC

set_option maxHeartbeats 4000000 in
theorem c_range : bptree.Range litT4 5 4000 9000 = some iterC0 := by rfl

set_option maxHeartbeats 4000000 in
theorem c_next1 : bptree.Next iterC0 5 = some (iterC0, false) := by rfl

end scenarioC

/-- **C2** — the claim "Range(s, e) yields exactly the stored keys k with
s ≤ k ≤ e, in ascending order" fails on the code: on the reachable
scenarioC state, the seek of Range(4000, 9000) lands on the corrupted cell
of the left leaf, whose decoded key 3038287259199220266 exceeds 9000, so
every `Next` call returns false immediately and the iterator yields
nothing — although the keys 5000–9000 stored in the next leaf lie inside
[4000, 9000]. -/
theorem c2_range_iterator_violated :
    ∃ (t1 t2 t3 t4 t5 t6 t7 t8 t9 t10 t11 t12 t13 : bptree.BPTree)
      (i0 : bptree.RangeIterator) (pR : Page),
      bptree.Insert (bptree.openFresh 0) 5 1000 scenarioC.vA = some t1 ∧
      bptree.Insert t1 5 2000 scenarioC.vA = some t2 ∧
      bptree.Insert t2 5 3000 scenarioC.vA = some t3 ∧
      bptree.Insert t3 5 4000 scenarioC.vA = some t4 ∧
      bptree.Insert t4 5 5000 scenarioC.vA = some t5 ∧
      bptree.Insert t5 5 6000 scenarioC.vA = some t6 ∧
      bptree.Insert t6 5 7000 scenarioC.vA = some t7 ∧
      bptree.Insert t7 5 8000 scenarioC.vA = some t8 ∧
      bptree.Insert t8 5 9000 scenarioC.vA = some t9 ∧
      bptree.Insert t9 5 1100 scenarioC.vA = some t10 ∧
      bptree.Insert t10 5 1200 scenarioC.vA = some t11 ∧
      bptree.Insert t11 5 1300 scenarioC.vA = some t12 ∧
      bptree.Insert t12 5 1500 scenarioC.vB = some t13 ∧
      bptree.Range t13 5 4000 9000 = some i0 ∧
      bptree.Next i0 5 = some (i0, false) ∧
      t13.pg.file 3 = some pR ∧
      5000 ∈ leafKeys pR ∧
      (4000 : Int) ≤ 5000 ∧ (5000 : Int) ≤ 9000 := by
  refine ⟨_, _, _, _, _, _, _, _, _, _, _, _, _, scenarioC.iterC0, scenarioC.pRight,
    scenarioC.c_step1, scenarioC.c_step2, scenarioC.c_step3, scenarioC.c_step4,
    scenarioC.c_step5, scenarioC.c_step6, scenarioC.c_step7, scenarioC.c_step8,
    scenarioC.c_step9, scenarioC.c_step10, scenarioC.c_step11, scenarioC.c_step12,
    scenarioC.c_step13,
    scenarioC.c_range, scenarioC.c_next1, scenarioC.final_pages.2, ?_,
    by decide, by decide⟩
  rw [scenarioC.right_keys]
  decide

/-! ## The binary search (C9) -/

/-- One unfolding of the search loop. -/
theorem bsearchAux_succ (keyAt : Nat → Int) (key : Int) (f lo hi : Nat) :
    bsearchAux keyAt key (f + 1) lo hi =
      if lo < hi then
        if keyAt ((lo + hi) / 2) < key then bsearchAux keyAt key f ((lo + hi) / 2 + 1) hi
        else bsearchAux keyAt key f lo ((lo + hi) / 2)
      else lo := rfl

theorem bsearchAux_zero (keyAt : Nat → Int) (key : Int) (lo hi : Nat) :
    bsearchAux keyAt key 0 lo hi = lo := rfl

/-- The loop result never exceeds the upper bound. -/
theorem bsearchAux_le (keyAt : Nat → Int) (key : Int) :
    ∀ f lo hi, lo ≤ hi → bsearchAux keyAt key f lo hi ≤ hi := by
  intro f
  induction f with
  | zero => intro lo hi h; exact h
  | succ f ih =>
    intro lo hi h
    rw [bsearchAux_succ]
    by_cases hlt : lo < hi
    · rw [if_pos hlt]
      by_cases hk : keyAt ((lo + hi) / 2) < key
      · rw [if_pos hk]; exact ih _ _ (by omega)
      · rw [if_neg hk]; exact le_trans (ih _ _ (by omega)) (by omega)
    · rw [if_neg hlt]; exact h

/-- Binary-search correctness on a strictly ascending key sequence: the
result separates the keys below the probe from those at or above it. -/
theorem bsearchAux_spec (keyAt : Nat → Int) (key : Int) (n : Nat)
    (mono : ∀ i j, i < j → j < n → keyAt i < keyAt j) :
    ∀ f lo hi, hi - lo ≤ f → lo ≤ hi → hi ≤ n →
      (∀ j, j < lo → keyAt j < key) →
      (∀ j, hi ≤ j → j < n → key ≤ keyAt j) →
      bsearchAux keyAt key f lo hi ≤ n ∧
      (∀ j, j < bsearchAux keyAt key f lo hi → keyAt j < key) ∧
      (∀ j, bsearchAux keyAt key f lo hi ≤ j → j < n → key ≤ keyAt j) := by
  intro f
  induction f with
  | zero =>
    intro lo hi hf hlh hhn hlow hhigh
    rw [bsearchAux_zero]
    exact ⟨by omega, hlow, fun j hj hjn => hhigh j (by omega) hjn⟩
  | succ f ih =>
    intro lo hi hf hlh hhn hlow hhigh
    rw [bsearchAux_succ]
    by_cases hlt : lo < hi
    · rw [if_pos hlt]
      by_cases hk : keyAt ((lo + hi) / 2) < key
      · rw [if_pos hk]
        refine ih ((lo + hi) / 2 + 1) hi (by omega) (by omega) hhn ?_ hhigh
        intro j hj
        by_cases hjm : j = (lo + hi) / 2
        · subst hjm; exact hk
        · exact lt_trans (mono j ((lo + hi) / 2) (by omega) (by omega)) hk
      · rw [if_neg hk]
        refine ih lo ((lo + hi) / 2) (by omega) (by omega) (by omega) hlow ?_
        intro j hj hjn
        by_cases hjm : j = (lo + hi) / 2
        · subst hjm; exact not_lt.mp hk
        · exact le_of_lt (lt_of_le_of_lt (not_lt.mp hk) (mono ((lo + hi) / 2) j (by omega) hjn))
    · rw [if_neg hlt]
      exact ⟨by omega, hlow, fun j hj hjn => hhigh j (by omega) hjn⟩

/-- The wrapper `bsearch` over the whole index range [0, n). -/
theorem bsearch_spec (keyAt : Nat → Int) (key : Int) (n : Nat)
    (mono : ∀ i j, i < j → j < n → keyAt i < keyAt j) :
    bsearch keyAt key 0 n ≤ n ∧
    (∀ j, j < bsearch keyAt key 0 n → keyAt j < key) ∧
    (∀ j, bsearch keyAt key 0 n ≤ j → j < n → key ≤ keyAt j) :=
  bsearchAux_spec keyAt key n mono (n - 0) 0 n (by omega) (by omega) (by omega)
    (fun j hj => absurd hj (by omega)) (fun j hj hjn => absurd hjn (by omega))

/-- **C9** — `FindIdx` (shared engine) and `findKeyIndex` (non-chained
variant) are correct binary searches: with strictly ascending cell keys
they return the least index whose key is at least the probe key, and `n`
when every key is smaller. -/
theorem c9_binary_search_least_index
    (acc : shared.NodeAcc) (p q : Page) (leaf : Bool) (key : Int) (n m : Nat)
    (hp : ∀ i j, i < j → j < n → (acc.ReadCell p i leaf).1 < (acc.ReadCell p j leaf).1)
    (hq : ∀ i j, i < j → j < m → (btree.getSlot q i).1 < (btree.getSlot q j).1) :
    (shared.FindIdx p key n acc leaf ≤ n ∧
     (∀ j, j < shared.FindIdx p key n acc leaf → (acc.ReadCell p j leaf).1 < key) ∧
     (∀ j, shared.FindIdx p key n acc leaf ≤ j → j < n →
        key ≤ (acc.ReadCell p j leaf).1)) ∧
    (btree.findKeyIndex q key m ≤ m ∧
     (∀ j, j < btree.findKeyIndex q key m → (btree.getSlot q j).1 < key) ∧
     (∀ j, btree.findKeyIndex q key m ≤ j → j < m → key ≤ (btree.getSlot q j).1)) :=
  ⟨bsearch_spec (fun i => (acc.ReadCell p i leaf).1) key n hp,
   bsearch_spec (fun i => (btree.getSlot q i).1) key m hq⟩

/-- C9 at a concrete input: both layouts decode keys 10 < 20 and both
searches place the probe 15 at index 1. -/
theorem c9_binary_search_witness :
    (∀ i j, i < j → j < 2 →
      (shared.BPTreeAcc.ReadCell c9p i true).1 < (shared.BPTreeAcc.ReadCell c9p j true).1) ∧
    (∀ i j, i < j → j < 2 → (btree.getSlot c9q i).1 < (btree.getSlot c9q j).1) ∧
    shared.FindIdx c9p 15 2 shared.BPTreeAcc true = 1 ∧
    btree.findKeyIndex c9q 15 2 = 1 := by
  have hp : ∀ i j, i < j → j < 2 →
      (shared.BPTreeAcc.ReadCell c9p i true).1 < (shared.BPTreeAcc.ReadCell c9p j true).1 := by
    intro i j hij hj
    have hj1 : j = 1 := by omega
    have hi0 : i = 0 := by omega
    subst hj1; subst hi0
    decide
  have hq : ∀ i j, i < j → j < 2 → (btree.getSlot c9q i).1 < (btree.getSlot c9q j).1 := by
    intro i j hij hj
    have hj1 : j = 1 := by omega
    have hi0 : i = 0 := by omega
    subst hj1; subst hi0
    decide
  have h := c9_binary_search_least_index shared.BPTreeAcc c9p c9q true 15 2 2 hp hq
  exact ⟨hp, hq, rfl, rfl⟩

/-! ## Byte-level frame lemmas (C10) -/

theorem lePut_outside (p : Nat → Nat) (off len v b : Nat)
    (h : b < off ∨ off + len ≤ b) : lePut p off len v b = p b := by
  simp only [lePut]
  rw [if_neg (show ¬(off ≤ b ∧ b < off + len) by omega)]

theorem leGet2 (q : Nat → Nat) (off : Nat) :
    leGet q off 2 = q off % 256 + 256 * (q (off + 1) % 256) := by
  show q off % 256 + 256 * (q (off + 1) % 256 + 256 * leGet q (off + 2) 0) = _
  have h0 : leGet q (off + 2) 0 = 0 := rfl
  rw [h0]
  omega

theorem leGet2_lt (q : Nat → Nat) (off : Nat) : leGet q off 2 < 65536 := by
  rw [leGet2]
  omega

theorem leGet_lePut2_same (p : Nat → Nat) (off v : Nat) :
    leGet (lePut p off 2 v) off 2 = v % 65536 := by
  rw [leGet2]
  simp only [lePut]
  rw [if_pos (show off ≤ off ∧ off < off + 2 by omega),
      if_pos (show off ≤ off + 1 ∧ off + 1 < off + 2 by omega)]
  have h1 : off - off = 0 := by omega
  have h2 : off + 1 - off = 1 := by omega
  rw [h1, h2]
  simp only [pow_zero, pow_one, Nat.div_one]
  omega

theorem leGet2_lePut_outside (p : Nat → Nat) (woff wlen v off : Nat)
    (h : off + 2 ≤ woff ∨ woff + wlen ≤ off) :
    leGet (lePut p woff wlen v) off 2 = leGet p off 2 := by
  rw [leGet2, leGet2, lePut_outside p woff wlen v off (by omega),
      lePut_outside p woff wlen v (off + 1) (by omega)]

theorem cellPtr_congr (q r : Page) (m : Nat)
    (h1 : q (btpage.OffCellPtrs + m * btpage.CellPtrSize) =
          r (btpage.OffCellPtrs + m * btpage.CellPtrSize))
    (h2 : q (btpage.OffCellPtrs + m * btpage.CellPtrSize + 1) =
          r (btpage.OffCellPtrs + m * btpage.CellPtrSize + 1)) :
    btpage.CellPtr q m = btpage.CellPtr r m := by
  simp only [btpage.CellPtr]
  rw [leGet2, leGet2, h1, h2]

theorem cellPtr_setCellPtr_same (p : Page) (i v : Nat) :
    btpage.CellPtr (btpage.SetCellPtr p i v) i = v % 65536 := by
  simp only [btpage.CellPtr, btpage.SetCellPtr]
  exact leGet_lePut2_same p (btpage.OffCellPtrs + i * btpage.CellPtrSize) v

theorem cellPtr_setCellPtr_other (p : Page) (i v m : Nat) (h : m ≠ i) :
    btpage.CellPtr (btpage.SetCellPtr p i v) m = btpage.CellPtr p m := by
  simp only [btpage.CellPtr, btpage.SetCellPtr]
  exact leGet2_lePut_outside p _ 2 v _
    (by simp only [btpage.OffCellPtrs, btpage.CellPtrSize]; omega)

theorem cellPtr_lt (p : Page) (m : Nat) : btpage.CellPtr p m < 65536 := by
  simp only [btpage.CellPtr]
  exact leGet2_lt p _

theorem delShift_outside :
    ∀ (c : Nat) (p : Page) (j b : Nat),
      (b < btpage.OffCellPtrs + j * btpage.CellPtrSize ∨
        btpage.OffCellPtrs + (j + c) * btpage.CellPtrSize ≤ b) →
      bptree.delShift p j c b = p b := by
  intro c
  induction c with
  | zero => intro p j b h; rfl
  | succ c ih =>
    intro p j b h
    simp only [btpage.OffCellPtrs, btpage.CellPtrSize] at h
    show bptree.delShift (btpage.SetCellPtr p j (btpage.CellPtr p (j + 1))) (j + 1) c b = p b
    rw [ih _ (j + 1) b (by simp only [btpage.OffCellPtrs, btpage.CellPtrSize]; omega)]
    simp only [btpage.SetCellPtr]
    exact lePut_outside _ _ _ _ _ (by simp only [btpage.OffCellPtrs, btpage.CellPtrSize]; omega)

theorem delShift_ptr_shift :
    ∀ (c : Nat) (p : Page) (j k : Nat), k < c →
      btpage.CellPtr (bptree.delShift p j c) (j + k) = btpage.CellPtr p (j + k + 1) := by
  intro c
  induction c with
  | zero => intro p j k h; exact absurd h (by omega)
  | succ c ih =>
    intro p j k hk
    show btpage.CellPtr
        (bptree.delShift (btpage.SetCellPtr p j (btpage.CellPtr p (j + 1))) (j + 1) c)
        (j + k) = _
    by_cases hk0 : k = 0
    · subst hk0
      have hb1 := delShift_outside c (btpage.SetCellPtr p j (btpage.CellPtr p (j + 1))) (j + 1)
        (btpage.OffCellPtrs + j * btpage.CellPtrSize)
        (Or.inl (by simp only [btpage.OffCellPtrs, btpage.CellPtrSize]; omega))
      have hb2 := delShift_outside c (btpage.SetCellPtr p j (btpage.CellPtr p (j + 1))) (j + 1)
        (btpage.OffCellPtrs + j * btpage.CellPtrSize + 1)
        (Or.inl (by simp only [btpage.OffCellPtrs, btpage.CellPtrSize]; omega))
      rw [show j + 0 = j from by omega]
      rw [cellPtr_congr _ _ j hb1 hb2, cellPtr_setCellPtr_same]
      exact Nat.mod_eq_of_lt (cellPtr_lt p (j + 1))
    · have h := ih (btpage.SetCellPtr p j (btpage.CellPtr p (j + 1))) (j + 1) (k - 1) (by omega)
      rw [show j + 1 + (k - 1) = j + k from by omega] at h
      rw [h]
      exact cellPtr_setCellPtr_other p j _ (j + k + 1) (by omega)

theorem numCells_setNumCells (p : Page) (v : Int) :
    btpage.NumCells (btpage.SetNumCells p v) = u16ofInt v := by
  simp only [btpage.NumCells, btpage.SetNumCells, btpage.OffNumCells]
  rw [leGet_lePut2_same]
  have h : u16ofInt v < 65536 := by
    simp only [u16ofInt]
    omega
  omega

/-- **C10** — `DeleteCell` (= `deleteLeafCell`) only shifts the pointer
array down and decrements the count: pointers below `i` survive, pointers
from `i` on take their right neighbour's value, and every byte outside the
count field and the shrunk pointer array — in particular the free-space-top
field and the whole content area — is untouched, so deleting never reclaims
content-area space. -/
theorem c10_delete_cell_frame (p : Page) (i n : Nat)
    (hn : btpage.NumCells p = n) (hi : i < n) :
    shared.DeleteCell p i = bptree.deleteLeafCell p i ∧
    btpage.NumCells (shared.DeleteCell p i) = n - 1 ∧
    btpage.CellContent (shared.DeleteCell p i) = btpage.CellContent p ∧
    (∀ j, j < i → btpage.CellPtr (shared.DeleteCell p i) j = btpage.CellPtr p j) ∧
    (∀ j, i ≤ j → j < n - 1 →
      btpage.CellPtr (shared.DeleteCell p i) j = btpage.CellPtr p (j + 1)) ∧
    (∀ b, (b = 0 ∨ (btpage.OffCellContent ≤ b ∧
            b < btpage.OffCellPtrs + i * btpage.CellPtrSize) ∨
          btpage.OffCellPtrs + (n - 1) * btpage.CellPtrSize ≤ b) →
      shared.DeleteCell p i b = p b) := by
  have hn16 : n < 65536 := by
    rw [← hn]
    simp only [btpage.NumCells, btpage.OffNumCells]
    exact leGet2_lt p 1
  have hD : shared.DeleteCell p i =
      btpage.SetNumCells (bptree.delShift p i (n - 1 - i)) ((n : Int) - 1) := by
    simp only [shared.DeleteCell]
    rw [hn]
  refine ⟨rfl, ?_, ?_, ?_, ?_, ?_⟩
  · rw [hD, numCells_setNumCells]
    simp only [u16ofInt]
    omega
  · rw [hD]
    simp only [btpage.CellContent, btpage.SetNumCells, btpage.OffCellContent,
      btpage.OffNumCells]
    rw [leGet2_lePut_outside _ _ _ _ _ (by omega)]
    rw [leGet2, leGet2]
    rw [delShift_outside (n - 1 - i) p i 3
        (Or.inl (by simp only [btpage.OffCellPtrs, btpage.CellPtrSize]; omega)),
      delShift_outside (n - 1 - i) p i (3 + 1)
        (Or.inl (by simp only [btpage.OffCellPtrs, btpage.CellPtrSize]; omega))]
  · intro j hj
    rw [hD]
    have hb1 : btpage.SetNumCells (bptree.delShift p i (n - 1 - i)) ((n : Int) - 1)
        (btpage.OffCellPtrs + j * btpage.CellPtrSize) =
        p (btpage.OffCellPtrs + j * btpage.CellPtrSize) := by
      simp only [btpage.SetNumCells, btpage.OffNumCells]
      rw [lePut_outside _ _ _ _ _
        (by simp only [btpage.OffCellPtrs, btpage.CellPtrSize]; omega)]
      exact delShift_outside (n - 1 - i) p i _
        (Or.inl (by simp only [btpage.OffCellPtrs, btpage.CellPtrSize]; omega))
    have hb2 : btpage.SetNumCells (bptree.delShift p i (n - 1 - i)) ((n : Int) - 1)
        (btpage.OffCellPtrs + j * btpage.CellPtrSize + 1) =
        p (btpage.OffCellPtrs + j * btpage.CellPtrSize + 1) := by
      simp only [btpage.SetNumCells, btpage.OffNumCells]
      rw [lePut_outside _ _ _ _ _
        (by simp only [btpage.OffCellPtrs, btpage.CellPtrSize]; omega)]
      exact delShift_outside (n - 1 - i) p i _
        (Or.inl (by simp only [btpage.OffCellPtrs, btpage.CellPtrSize]; omega))
    exact cellPtr_congr _ _ j hb1 hb2
  · intro j hij hjn
    rw [hD]
    have hstep : btpage.CellPtr
        (btpage.SetNumCells (bptree.delShift p i (n - 1 - i)) ((n : Int) - 1)) j =
        btpage.CellPtr (bptree.delShift p i (n - 1 - i)) j := by
      refine cellPtr_congr _ _ j ?_ ?_
      · simp only [btpage.SetNumCells, btpage.OffNumCells]
        exact lePut_outside _ _ _ _ _
          (by simp only [btpage.OffCellPtrs, btpage.CellPtrSize]; omega)
      · simp only [btpage.SetNumCells, btpage.OffNumCells]
        exact lePut_outside _ _ _ _ _
          (by simp only [btpage.OffCellPtrs, btpage.CellPtrSize]; omega)
    rw [hstep]
    have h := delShift_ptr_shift (n - 1 - i) p i (j - i) (by omega)
    rw [show i + (j - i) = j from by omega] at h
    exact h
  · intro b hb
    simp only [btpage.OffCellContent, btpage.OffCellPtrs, btpage.CellPtrSize] at hb
    rw [hD]
    simp only [btpage.SetNumCells, btpage.OffNumCells]
    rw [lePut_outside _ _ _ _ _ (by omega)]
    exact delShift_outside (n - 1 - i) p i b
      (by simp only [btpage.OffCellPtrs, btpage.CellPtrSize]; omega)

/-- C10 at a concrete input: deleting cell 1 of a 3-cell page keeps the
content top at 1000, keeps pointer 0, and moves pointer 2 into slot 1. -/
theorem c10_delete_cell_witness :
    btpage.NumCells c10p = 3 ∧ 1 < 3 ∧
    btpage.NumCells (shared.DeleteCell c10p 1) = 2 ∧
    btpage.CellContent (shared.DeleteCell c10p 1) = btpage.CellContent c10p ∧
    btpage.CellPtr (shared.DeleteCell c10p 1) 0 = btpage.CellPtr c10p 0 ∧
    btpage.CellPtr (shared.DeleteCell c10p 1) 1 = btpage.CellPtr c10p 2 := by
  have h := c10_delete_cell_frame c10p 1 3 rfl (by decide)
  exact ⟨rfl, by decide, h.2.1, h.2.2.1, h.2.2.2.1 0 (by decide),
    h.2.2.2.2.1 1 (by decide) (by decide)⟩

/-! ## The LRU read path (C8) -/

/-- A cache hit answers from the cache (the read path consults it first). -/
theorem read_on_hit (pgx : Pager) (idx : Nat) (px : Page) (cx : pager.Cache)
    (h : pager.lruGet pgx.cache idx = (some px, cx)) :
    pager.Read pgx idx = some (px, { pgx with cache := cx }) := by
  simp only [pager.Read, h]

/-- A cold miss reads from disk and pushes the block to the cache front,
evicting the tail exactly when the capacity would be exceeded. -/
theorem read_on_miss (pg : Pager) (id : Nat) (p : Page) (c : Nat)
    (hcap : pg.cacheCap = (c : Int))
    (hlen : pg.cache.length ≤ c)
    (hm : id ∉ pg.cache.map Prod.fst)
    (hf : pg.file id = some p) :
    pager.Read pg id =
      some (p, { pg with cache := pager.lruPut pg.cache id p pg.cacheCap }) ∧
    (pager.lruPut pg.cache id p pg.cacheCap).map Prod.fst =
      (id :: pg.cache.map Prod.fst).take c := by
  have hfind : pg.cache.find? (fun e => e.1 == id) = none := by
    rw [List.find?_eq_none]
    intro e he hbe
    exact hm (List.mem_map.mpr ⟨e, he, by simpa using hbe⟩)
  constructor
  · simp only [pager.Read, pager.lruGet, hfind, pager.readPageFromDisk, hf]
  · simp only [pager.lruPut, hfind, pager.lruEvict]
    by_cases hfull : pg.cache.length = c
    · rw [hcap, if_pos (by simp only [List.length_cons, hfull]; exact_mod_cast Nat.lt_succ_self c)]
      rw [List.map_dropLast, List.map_cons]
      rw [List.dropLast_eq_take]
      simp only [List.length_cons, List.length_map, hfull, Nat.add_sub_cancel]
    · rw [hcap, if_neg (by simp only [List.length_cons]; push_cast; omega)]
      rw [List.map_cons]
      exact (List.take_of_length_le (by simp only [List.length_cons, List.length_map]; omega)).symm

theorem take_append_take {α : Type} (xs ys : List α) (c : Nat) :
    (xs ++ ys.take c).take c = (xs ++ ys).take c := by
  rw [List.take_append_eq_append_take, List.take_append_eq_append_take, List.take_take]
  congr 1
  rw [Nat.min_eq_left (Nat.sub_le c xs.length)]

/-- Reading distinct uncached blocks keeps the cache an MRU-ordered window
of the most recent `c` reads. -/
theorem readSeq_cache_aux (c : Nat) :
    ∀ (ids : List Nat) (pg : Pager),
      pg.cacheCap = (c : Int) →
      pg.cache.length ≤ c →
      (∀ id ∈ ids, (pg.file id).isSome = true) →
      (∀ id ∈ ids, id ∉ pg.cache.map Prod.fst) →
      ids.Nodup →
      ∃ pg1, readSeq pg ids = some pg1 ∧
        pg1.file = pg.file ∧ pg1.cacheCap = pg.cacheCap ∧
        pg1.cache.map Prod.fst = (ids.reverse ++ pg.cache.map Prod.fst).take c := by
  intro ids
  induction ids with
  | nil =>
    intro pg hcap hlen hf hm hnodup
    refine ⟨pg, rfl, rfl, rfl, ?_⟩
    simp only [List.reverse_nil, List.nil_append]
    exact (List.take_of_length_le (by simp only [List.length_map]; omega)).symm
  | cons id rest ih =>
    intro pg hcap hlen hf hm hnodup
    obtain ⟨p, hp⟩ := Option.isSome_iff_exists.mp (hf id (by simp))
    have hmiss := read_on_miss pg id p c hcap hlen (hm id (by simp)) hp
    have hlenN : (pager.lruPut pg.cache id p pg.cacheCap).length ≤ c := by
      have h2 := congrArg List.length hmiss.2
      simp only [List.length_map, List.length_take] at h2
      omega
    have hmN : ∀ i ∈ rest,
        i ∉ ({ pg with cache := pager.lruPut pg.cache id p pg.cacheCap } : Pager).cache.map
          Prod.fst := by
      intro i hi hmem
      rw [show ({ pg with cache := pager.lruPut pg.cache id p pg.cacheCap } : Pager).cache =
            pager.lruPut pg.cache id p pg.cacheCap from rfl, hmiss.2] at hmem
      rcases List.mem_cons.mp (List.mem_of_mem_take hmem) with h | h
      · exact (List.nodup_cons.mp hnodup).1 (h ▸ hi)
      · exact hm i (List.mem_cons_of_mem _ hi) h
    obtain ⟨pg2, hrun, hfile2, hcap2, hcache2⟩ :=
      ih { pg with cache := pager.lruPut pg.cache id p pg.cacheCap } hcap hlenN
        (fun i hi => hf i (List.mem_cons_of_mem _ hi)) hmN (List.nodup_cons.mp hnodup).2
    refine ⟨pg2, ?_, hfile2, hcap2, ?_⟩
    · simp only [readSeq, hmiss.1]
      exact hrun
    · rw [hcache2]
      rw [show ({ pg with cache := pager.lruPut pg.cache id p pg.cacheCap } : Pager).cache =
            pager.lruPut pg.cache id p pg.cacheCap from rfl, hmiss.2]
      rw [take_append_take, List.reverse_cons, List.append_assoc]
      rfl

/-- **C8** — the read path consults the LRU cache first (a hit answers from
the cache); and reading `c + 1` distinct blocks into an empty cache of
capacity `c` succeeds, evicts exactly the first block read, and leaves the
others cached in MRU order, the cache never exceeding `c` entries. -/
theorem c8_lru_read_path
    (c : Nat) (ids rest : List Nat) (pg : Pager) (a : Nat)
    (hcap : pg.cacheCap = (c : Int))
    (hempty : pg.cache = [])
    (hids : ids = a :: rest)
    (hlen : rest.length = c)
    (hnodup : ids.Nodup)
    (hfile : ∀ id ∈ ids, (pg.file id).isSome = true) :
    (∀ (pgx : Pager) (idx : Nat) (px : Page) (cx : pager.Cache),
      pager.lruGet pgx.cache idx = (some px, cx) →
      pager.Read pgx idx = some (px, { pgx with cache := cx })) ∧
    ∃ pg1, readSeq pg ids = some pg1 ∧
      pg1.cache.map Prod.fst = rest.reverse ∧
      a ∉ pg1.cache.map Prod.fst ∧
      pg1.cache.length ≤ c := by
  obtain ⟨pg1, hrun, hfile1, hcap1, hcache1⟩ :=
    readSeq_cache_aux c ids pg hcap (by rw [hempty]; simp) hfile
      (by intro id h; rw [hempty]; simp) hnodup
  have hmap : pg1.cache.map Prod.fst = rest.reverse := by
    rw [hcache1, hempty]
    simp only [List.map_nil, List.append_nil]
    rw [hids, List.reverse_cons, List.take_append_eq_append_take,
      List.take_of_length_le (by simp only [List.length_reverse]; omega),
      show c - rest.reverse.length = 0 from by simp only [List.length_reverse]; omega,
      List.take_zero, List.append_nil]
  refine ⟨read_on_hit, pg1, hrun, hmap, ?_, ?_⟩
  · rw [hmap, List.mem_reverse]
    have h2 := hnodup
    rw [hids, List.nodup_cons] at h2
    exact h2.1
  · have h2 : pg1.cache.length = rest.reverse.length := by
      rw [← List.length_map pg1.cache Prod.fst, hmap]
    simp only [List.length_reverse, hlen] at h2
    omega

/-- C8 at a concrete input: capacity 2, cold reads of blocks 5, 6, 7 —
block 5 is evicted, the cache holds [7, 6]. -/
theorem c8_lru_read_witness :
    (∀ (pgx : Pager) (idx : Nat) (px : Page) (cx : pager.Cache),
      pager.lruGet pgx.cache idx = (some px, cx) →
      pager.Read pgx idx = some (px, { pgx with cache := cx })) ∧
    ∃ pg1, readSeq c8pg [5, 6, 7] = some pg1 ∧
      pg1.cache.map Prod.fst = [7, 6] ∧
      5 ∉ pg1.cache.map Prod.fst ∧
      pg1.cache.length ≤ 2 :=
  c8_lru_read_path 2 [5, 6, 7] [6, 7] c8pg 5 rfl rfl rfl rfl (by decide)
    (fun id _ => rfl)

/-! ## Lookup misses (C7) -/

/-- Reading any file-backed block through a coherent cache succeeds and
preserves the file and coherence. -/
theorem read_of_coherent (pg : Pager) (id : Nat) (p : Page)
    (hc : coherent pg) (hf : pg.file id = some p) :
    ∃ pg1, pager.Read pg id = some (p, pg1) ∧ pg1.file = pg.file ∧ coherent pg1 := by
  cases hfind : pg.cache.find? (fun e => e.1 == id) with
  | some e =>
    have he : e ∈ pg.cache := List.mem_of_find?_eq_some hfind
    have heq : e.1 = id := by
      have h2 := List.find?_some hfind
      simpa using h2
    have hep : e.2 = p := by
      have h1 := hc e he
      rw [heq, hf] at h1
      exact (Option.some_inj.mp h1).symm
    refine ⟨{ pg with cache := (id, e.2) :: pg.cache.eraseP (fun e => e.1 == id) }, ?_, rfl, ?_⟩
    · simp only [pager.Read, pager.lruGet, hfind, hep]
    · intro x hx
      rcases List.mem_cons.mp hx with h | h
      · rw [h]
        show pg.file id = some e.2
        rw [hep]
        exact hf
      · exact hc x (List.mem_of_mem_eraseP h)
  | none =>
    refine ⟨{ pg with cache := pager.lruPut pg.cache id p pg.cacheCap }, ?_, rfl, ?_⟩
    · simp only [pager.Read, pager.lruGet, hfind, pager.readPageFromDisk, hf]
    · intro x hx
      simp only [pager.lruPut, hfind, pager.lruEvict] at hx
      have hx2 : x ∈ (id, p) :: pg.cache := by
        by_cases hcond : ((((id, p) :: pg.cache).length : Int) > pg.cacheCap)
        · rw [if_pos hcond] at hx
          exact List.dropLast_subset _ hx
        · rw [if_neg hcond] at hx
          exact hx
      rcases List.mem_cons.mp hx2 with h | h
      · rw [h]
        exact hf
      · exact hc x h

theorem findIdx_le_shared (p : Page) (key : Int) (n : Nat) (acc : shared.NodeAcc)
    (leaf : Bool) : shared.FindIdx p key n acc leaf ≤ n :=
  bsearchAux_le _ key (n - 0) 0 n (Nat.zero_le n)

theorem findInternalIdx_le (p : Page) (key : Int) (n : Nat) :
    bptree.findInternalIdx p key n ≤ n :=
  bsearchAux_le _ key (n - 0) 0 n (Nat.zero_le n)

/-- Shared-engine descent on a valid key-free subtree ends at a leaf with a
miss, which `GetLoop` reports as `some (none, _)` — absent, no error. -/
theorem sharedGetLoop_miss (acc : shared.NodeAcc) (key : Int) :
    ∀ (h fuel : Nat) (pg : Pager) (id : Nat), h ≤ fuel → coherent pg →
      ValidAbsent acc pg.file h id key →
      ∃ pg1, shared.GetLoop acc key fuel pg id = some (none, pg1) := by
  intro h
  induction h with
  | zero => intro fuel pg id hfuel hc hv; exact False.elim hv
  | succ h ih =>
    intro fuel pg id hfuel hc hv
    simp only [ValidAbsent] at hv
    obtain ⟨p, hp, hnomatch, hrest⟩ := hv
    cases fuel with
    | zero => exact absurd hfuel (by omega)
    | succ f =>
      obtain ⟨pg1, hread, hfile1, hc1⟩ := read_of_coherent pg id p hc hp
      simp only [shared.GetLoop, hread]
      have hcond : ¬(shared.FindIdx p key (btpage.NumCells p) acc (shared.isLeaf p) <
            btpage.NumCells p ∧
          (acc.ReadCell p (shared.FindIdx p key (btpage.NumCells p) acc (shared.isLeaf p))
            (shared.isLeaf p)).1 = key ∧
          (acc.ReadCell p (shared.FindIdx p key (btpage.NumCells p) acc (shared.isLeaf p))
            (shared.isLeaf p)).2.1.isSome = true) := by
        rintro ⟨h1, h2, h3⟩
        exact hnomatch _ h1 ⟨h2, h3⟩
      rw [if_neg hcond]
      by_cases hl : shared.isLeaf p = true
      · rw [if_pos hl]
        exact ⟨pg1, rfl⟩
      · rw [if_neg hl]
        rcases hrest with hleft | hchildren
        · exact absurd hleft hl
        · have hvchild := hchildren _
            (findIdx_le_shared p key (btpage.NumCells p) acc (shared.isLeaf p))
          rw [← hfile1] at hvchild
          exact ih f pg1 _ (by omega) hc1 hvchild

/-- Chained-variant descent on a valid key-free subtree finds a leaf that
does not hold the key. -/
theorem bpFindLeafLoop_miss (key : Int) :
    ∀ (h fuel : Nat) (pg : Pager) (id : Nat), h ≤ fuel → coherent pg →
      ValidAbsentBP pg.file h id key →
      ∃ leafID pg1 p, bptree.findLeafLoop key fuel pg id = some (leafID, pg1) ∧
        pg1.file = pg.file ∧ coherent pg1 ∧ pg1.file leafID = some p ∧
        byteAt p btpage.OffType = btpage.TypeLeaf ∧
        (∀ i, i < btpage.NumCells p → (bptree.readLeafCell p i).1 ≠ key) := by
  intro h
  induction h with
  | zero => intro fuel pg id hfuel hc hv; exact False.elim hv
  | succ h ih =>
    intro fuel pg id hfuel hc hv
    simp only [ValidAbsentBP] at hv
    obtain ⟨p, hp, hrest⟩ := hv
    cases fuel with
    | zero => exact absurd hfuel (by omega)
    | succ f =>
      obtain ⟨pg1, hread, hfile1, hc1⟩ := read_of_coherent pg id p hc hp
      by_cases hl : byteAt p btpage.OffType = btpage.TypeLeaf
      · refine ⟨id, pg1, p, ?_, hfile1, hc1, ?_, hl, ?_⟩
        · simp only [bptree.findLeafLoop, hread]
          rw [if_pos hl]
        · rw [hfile1]
          exact hp
        · rw [if_pos hl] at hrest
          exact hrest
      · rw [if_neg hl] at hrest
        have hchild := hrest _ (findInternalIdx_le p key (btpage.NumCells p))
        rw [← hfile1] at hchild
        obtain ⟨leafID, pg2, pl, hrun, hfile2, hc2, hpl, hplleaf, hnm⟩ :=
          ih f pg1 _ (by omega) hc1 hchild
        refine ⟨leafID, pg2, pl, ?_, by rw [hfile2, hfile1], hc2, hpl, hplleaf, hnm⟩
        simp only [bptree.findLeafLoop, hread]
        rw [if_neg hl]
        exact hrun

/-- **C7** — a lookup of an absent key is a normal non-error outcome for
both variants: with a coherent cache and a valid subtree in which `key` is
absent, `Get` descends to a leaf, finds no match, and returns the absent
result (`some (none, _)`, Go's `nil, nil`) rather than an error. -/
theorem c7_get_miss_returns_absent
    (acc : shared.NodeAcc) (pgA pgB : Pager) (rootA rootB : Nat) (kA kB : Int)
    (hA hB fuelA fuelB : Nat)
    (hcA : coherent pgA) (hvA : ValidAbsent acc pgA.file hA rootA kA) (hfA : hA ≤ fuelA)
    (hcB : coherent pgB) (hvB : ValidAbsentBP pgB.file hB rootB kB) (hfB : hB ≤ fuelB) :
    (∃ pg1, shared.Get ⟨pgA, rootA, acc⟩ fuelA kA = some (none, pg1)) ∧
    (∃ pg1, bptree.Get ⟨pgB, rootB⟩ fuelB kB = some (none, pg1)) := by
  constructor
  · exact sharedGetLoop_miss acc kA hA fuelA pgA rootA hfA hcA hvA
  · obtain ⟨leafID, pg1, p, hrun, hfile1, hc1, hpl, hleaf, hnm⟩ :=
      bpFindLeafLoop_miss kB hB fuelB pgB rootB hfB hcB hvB
    obtain ⟨pg2, hread2, hfile2, hc2⟩ := read_of_coherent pg1 leafID p hc1 hpl
    refine ⟨pg2, ?_⟩
    simp only [bptree.Get, bptree.findLeaf, hrun, hread2]
    have hcond : ¬(bptree.findLeafIdx p kB (btpage.NumCells p) < btpage.NumCells p ∧
        (bptree.readLeafCell p (bptree.findLeafIdx p kB (btpage.NumCells p))).1 = kB) := by
      rintro ⟨h1, h2⟩
      exact hnm _ h1 h2
    rw [if_neg hcond]

/-- C7 at a concrete input: on a fresh chained-variant file (root = the
empty leaf, block 2), both engines report key 5 absent without error. -/
theorem c7_get_miss_witness :
    (∃ pg1, shared.Get ⟨(bptree.openFresh 0).pg, 2, shared.BPTreeAcc⟩ 1 5 =
      some (none, pg1)) ∧
    (∃ pg1, bptree.Get ⟨(bptree.openFresh 0).pg, 2⟩ 1 5 = some (none, pg1)) := by
  have hc : coherent (bptree.openFresh 0).pg := by
    intro e he
    exact absurd he (List.not_mem_nil e)
  have hn0 : btpage.NumCells c7leaf = 0 := rfl
  have hvA : ValidAbsent shared.BPTreeAcc (bptree.openFresh 0).pg.file 1 2 5 := by
    refine ⟨c7leaf, rfl, ?_, Or.inl rfl⟩
    intro i hi
    rw [hn0] at hi
    exact absurd hi (by omega)
  have hvB : ValidAbsentBP (bptree.openFresh 0).pg.file 1 2 5 := by
    refine ⟨c7leaf, rfl, ?_⟩
    rw [if_pos (show byteAt c7leaf btpage.OffType = btpage.TypeLeaf from rfl)]
    intro i hi
    rw [hn0] at hi
    exact absurd hi (by omega)
  exact c7_get_miss_returns_absent shared.BPTreeAcc _ _ 2 2 5 5 1 1 1 1 hc hvA le_rfl
    hc hvB le_rfl
